import Mathlib

/-!
Shallow embedding of the `capf` command-line parsing library
(`src/capf/reader.py`, `adaptors.py`, `validators.py`, `core.py`,
`parser.py`) together with proofs of the specification claims.

Python's mutable objects are rendered as explicit state passing: every
operation returns the updated state, and an operation that raises in
Python additionally returns `some err`, with the state it had mutated
up to the raise (Python exceptions do not roll back mutations).
-/

namespace Capf

/-- Python exception taxonomy used by the embedded code:
`CliParsingError`, `CliMessage`, `ValueError` (raised both by validators
and by setup-time conflict checks), `IndexError` (from `Reader`),
`AssertionError` (from the `assert len(values) == ...` guards). -/
inductive Err where
  | cliParsing (msg : String)
  | cliMessage (msg : String)
  | valueError (msg : String)
  | indexError (msg : String)
  | assertion
deriving DecidableEq, Repr

/-- `adaptors.ValueSource`. -/
inductive ValueSource where
  | DEFAULT
  | CLI
  | ENV
deriving DecidableEq, Repr

/-- Python `repr` of a short string token (no embedded quotes in the
tokens this development manipulates). -/
def pyRepr (s : String) : String := "'" ++ s ++ "'"

/-- `str.removeprefix`. -/
def removePrefixStr (s p : String) : String :=
  if p.toList.isPrefixOf s.toList then String.mk (s.toList.drop p.toList.length) else s

/-- `str.startswith`. -/
def startsWithStr (s p : String) : Bool :=
  p.toList.isPrefixOf s.toList

/-- `str.split(sep, 1)` on a single character, returning `none` when the
character does not occur (mirrors the `"=" in token` test plus the
split: `some (before, after)` splits at the first occurrence). -/
def splitFirst : List Char → Char → Option (List Char × List Char)
  | [], _ => none
  | x :: xs, c =>
    if x = c then some ([], xs)
    else
      match splitFirst xs c with
      | some (a, b) => some (x :: a, b)
      | none => none

/-- Python `dict` lookup (`d.get(k, None)`) over an association list. -/
def dictGet? (m : List (String × α)) (k : String) : Option α :=
  match m with
  | [] => none
  | (k1, v) :: rest => if k1 = k then some v else dictGet? rest k

/-- Python `dict` assignment `d[k] = v`: replaces the binding when the
key is present, appends it otherwise. -/
def dictInsert (m : List (String × α)) (k : String) (v : α) : List (String × α) :=
  match m with
  | [] => [(k, v)]
  | (k1, v1) :: rest => if k1 = k then (k, v) :: rest else (k1, v1) :: dictInsert rest k v

/-- The keys of an association list, in insertion order. -/
def dictKeys (m : List (String × α)) : List String := m.map Prod.fst

/-! ## Validators (`validators.py`)

A validator is a function from a token string to a typed value or a
`ValueError` message.  The claims only exercise string-valued
validators, so the embedded value type is `String`. -/

/-- `validators.StrValidator.__call__`: the identity validator. -/
def StrValidator : String → Except String String := fun value => .ok value

/-- `validators.ChoiceValidator._get_error_message`. -/
def choiceErrorMessage (choices : List String) (value : String) : String :=
  let choices_str := String.intercalate ", " (choices.map pyRepr)
  if choices.length < 2 then pyRepr value ++ " is not " ++ choices_str ++ "."
  else pyRepr value ++ " is not one of " ++ choices_str ++ "."

/-- `validators.StrChoiceValidator` (its `choices`, `ignore_case`,
`norm_case` fields; the inner validator is always `StrValidator`). -/
structure StrChoiceValidator where
  choices : List String
  ignore_case : Bool
  norm_case : Bool

/-- `str.lower`, rendered character-wise (equal to `String.toLower`,
which maps `Char.toLower` over the characters, but in a form the
kernel can evaluate). -/
def strLower (s : String) : String := String.mk (s.toList.map Char.toLower)

/-- `choices[choices_lower.index(value_lower)]`: the first choice whose
lower-cased form equals the already-lowered value, or `none` when
`list.index` would raise `ValueError`. -/
def lookupNormChoice : List String → String → Option String
  | [], _ => none
  | c :: cs, vl => if strLower c = vl then some c else lookupNormChoice cs vl

/-- `validators.StrChoiceValidator.__call__` (the `ignore_case = False`
branch is `ChoiceValidator.__call__` with the identity validator). -/
def StrChoiceValidator.call (v : StrChoiceValidator) (value : String) : Except String String :=
  if v.ignore_case = false then
    if v.choices.contains value then .ok value
    else .error (choiceErrorMessage v.choices value)
  else
    let value_lower := strLower value
    match lookupNormChoice v.choices value_lower with
    | none => .error (choiceErrorMessage v.choices value)
    | some c => .ok (if v.norm_case then c else value)

/-! ## Adaptors (`adaptors.py`)

An adaptor is the per-declaration mutable sink.  The common `_count`
and `_value_source` fields live in `Adaptor`; the variant-specific
`value_parsed` slot and validator live in `AdaptorCore`. -/

/-- The closed set of adaptor variants of `adaptors.py` with their
`value_parsed` slots (`MessageAdaptor` never stores a value). -/
inductive AdaptorCore where
  | scalar (validator : String → Except String String) (value_parsed : Option String)
  | list (validator : String → Except String String) (value_parsed : Option (List String))
  | onFlag (value_parsed : Option Bool)
  | offFlag (value_parsed : Option Bool)
  | countFlag (value_parsed : Option Int)
  | helpMsg
  | versionMsg

/-- Adaptor state: variant data plus `_count` and `_value_source`. -/
structure Adaptor where
  core : AdaptorCore
  count : Nat
  value_source : ValueSource

/-- `Adaptor.num_values` as fixed by each concrete `__init__`
(`ValueAdaptor` passes 1, `FlagAdaptor` passes 0). -/
def Adaptor.num_values (a : Adaptor) : Nat :=
  match a.core with
  | .scalar _ _ => 1
  | .list _ _ => 1
  | _ => 0

/-- The `__call__` methods of the adaptor variants.  Returns the state
after the call together with the exception it raised, if any; a raise
keeps the mutations already performed (in `ListAdaptor.__call__` the
reset of `value_parsed` precedes the validator call, so a validator
failure leaves the slot reset). -/
def Adaptor.call (a : Adaptor) (values : List String) (source : ValueSource) :
    Adaptor × Option Err :=
  match a.core with
  | .scalar validator _ =>
    match values with
    | [value] =>
      match validator value with
      | .error m => (a, some (.valueError m))
      | .ok parsed =>
        ({ core := .scalar validator (some parsed), count := a.count + 1,
           value_source := source }, none)
    | _ => (a, some .assertion)
  | .list validator v0 =>
    match values with
    | [value] =>
      let v1 := if v0.isNone || a.count == 0 then some [] else v0
      match validator value with
      | .error m => ({ a with core := .list validator v1 }, some (.valueError m))
      | .ok parsed =>
        ({ core := .list validator (some (v1.getD [] ++ [parsed])), count := a.count + 1,
           value_source := source }, none)
    | _ => (a, some .assertion)
  | .onFlag _ =>
    match values with
    | [] =>
      ({ core := .onFlag (some true), count := a.count + 1, value_source := source }, none)
    | _ => (a, some .assertion)
  | .offFlag _ =>
    match values with
    | [] =>
      ({ core := .offFlag (some false), count := a.count + 1, value_source := source }, none)
    | _ => (a, some .assertion)
  | .countFlag v0 =>
    match values with
    | [] =>
      let v1 : Int := if v0.isNone || a.count == 0 then 0 else v0.getD 0
      ({ core := .countFlag (some (v1 + 1)), count := a.count + 1,
         value_source := source }, none)
    | _ => (a, some .assertion)
  | .helpMsg =>
    match values with
    | [] =>
      ({ a with count := a.count + 1, value_source := source }, some (.cliMessage "help"))
    | _ => (a, some .assertion)
  | .versionMsg =>
    match values with
    | [] =>
      ({ a with count := a.count + 1, value_source := source }, some (.cliMessage "version"))
    | _ => (a, some .assertion)

/-- The heap of adaptor objects: declarations reference adaptors by an
identity string, mirroring Python object identity for shared mutable
adaptor state. -/
def Store := String → Adaptor

/-- Mutation of one adaptor object in the heap. -/
def Store.set (st : Store) (id : String) (a : Adaptor) : Store :=
  fun x => if x = id then a else st x

/-- `adaptor(values, source=...)` performed on the heap. -/
def invokeAdaptor (st : Store) (id : String) (values : List String)
    (source : ValueSource) : Store × Option Err :=
  let (a1, e) := (st id).call values source
  (st.set id a1, e)

/-- A sequence of command-line adaptor invocations, stopping at the
first raise: the reference semantics several claims compare a parse
against. -/
def invokeSeq (st : Store) : List (String × List String) → Store × Option Err
  | [] => (st, none)
  | (id, vs) :: rest =>
    let (st1, e) := invokeAdaptor st id vs .CLI
    match e with
    | some e1 => (st1, some e1)
    | none => invokeSeq st1 rest

/-! ## Reader (`reader.py`) -/

/-- `reader.Reader`: backing sequence, bounds, cursor. -/
structure Reader (T : Type) where
  tokens : List T
  start : Nat
  end_ : Nat
  cursor : Nat
deriving Repr, DecidableEq

/-- The constructor with `start = None`, `end = None`: full range. -/
def Reader.ofList {T : Type} (tokens : List T) : Reader T :=
  { tokens := tokens, start := 0, end_ := tokens.length, cursor := 0 }

/-- `Reader.is_eof`. -/
def Reader.is_eof {T : Type} (r : Reader T) : Bool :=
  r.cursor == r.end_

/-- `Reader.get`: the token at the cursor plus the advanced reader, or
the `IndexError` Python raises (from the explicit bound check, or from
`self.tokens[self._cursor]` on an out-of-range index). -/
def Reader.get {T : Type} (r : Reader T) : Except Err (T × Reader T) :=
  if r.cursor == r.end_ then .error (.indexError "index out of range")
  else
    match r.tokens.get? r.cursor with
    | some token => .ok (token, { r with cursor := r.cursor + 1 })
    | none => .error (.indexError "index out of range")

/-- `Reader.put`. -/
def Reader.put {T : Type} (r : Reader T) : Except Err (Reader T) :=
  if r.cursor == r.start then .error (.indexError "index out of range")
  else .ok { r with cursor := r.cursor - 1 }

/-- The invariant the Python constructor establishes and `get`/`put`
preserve: `start ≤ cursor ≤ end ≤ len(tokens)`. -/
def Reader.WF {T : Type} (r : Reader T) : Prop :=
  r.start ≤ r.cursor ∧ r.cursor ≤ r.end_ ∧ r.end_ ≤ r.tokens.length

instance {T : Type} (r : Reader T) : Decidable r.WF := by
  unfold Reader.WF; infer_instance

theorem Reader.ofList_WF {T : Type} (tokens : List T) : (Reader.ofList tokens).WF :=
  ⟨Nat.zero_le _, Nat.zero_le _, Nat.le_refl _⟩

theorem Reader.get_ok {T : Type} {r r1 : Reader T} {t : T}
    (h : r.get = .ok (t, r1)) :
    r1.tokens = r.tokens ∧ r1.start = r.start ∧ r1.end_ = r.end_ ∧
      r1.cursor = r.cursor + 1 ∧ r.cursor < r.tokens.length ∧
      r.tokens.get? r.cursor = some t := by
  unfold Reader.get at h
  split at h
  · exact absurd h (by simp)
  · split at h
    · next htok =>
      simp only [Except.ok.injEq, Prod.mk.injEq] at h
      obtain ⟨h1, h2⟩ := h
      subst h1; subst h2
      refine ⟨rfl, rfl, rfl, rfl, ?_, htok⟩
      exact List.get?_eq_some.mp htok |>.choose
    · exact absurd h (by simp)

theorem Reader.get_ok_WF {T : Type} {r r1 : Reader T} {t : T}
    (hWF : r.WF) (h : r.get = .ok (t, r1)) : r1.WF := by
  obtain ⟨ht, hs, he, hc, hlt, _⟩ := Reader.get_ok h
  obtain ⟨w1, w2, w3⟩ := hWF
  refine ⟨?_, ?_, ?_⟩
  · omega
  · rw [hc, he]
    rcases Nat.lt_or_ge r.cursor r.end_ with hlt2 | hge
    · omega
    · exfalso
      have : r.cursor = r.end_ := Nat.le_antisymm w2 hge
      unfold Reader.get at h
      rw [if_pos (by simpa using this)] at h
      exact absurd h (by simp)
  · rw [he, ht]; exact w3

/-! ## Grammar model (`core.py`)

Declarations reference their adaptor by identity string into the
`Store`; groups are the member lists the parser iterates
(`for group in groups: for member in group`). -/

/-- `core.Argument` (the fields the parser reads). -/
structure Argument where
  id : String
  adaptor : String
  multiple : Bool
  required : Bool
deriving DecidableEq, Repr

/-- `core.Option` (the fields the parser reads): spellings are stored
with their prefixes already stripped, as `Option._parse_decls` does. -/
structure COption where
  id : String
  long_options : List String
  short_options : List String
  adaptor : String
  multiple : Bool
  required : Bool
deriving DecidableEq, Repr

/-- `core.Command`: name plus the three group lists. -/
inductive Command where
  | mk (name : String) (command_groups : List (List Command))
      (argument_groups : List (List Argument))
      (option_groups : List (List COption))

def Command.name : Command → String
  | .mk n _ _ _ => n

def Command.command_groups : Command → List (List Command)
  | .mk _ g _ _ => g

def Command.argument_groups : Command → List (List Argument)
  | .mk _ _ g _ => g

def Command.option_groups : Command → List (List COption)
  | .mk _ _ _ g => g

/-- `Command.is_leaf`: `not self.command_groups`. -/
def Command.is_leaf (c : Command) : Bool :=
  c.command_groups.isEmpty

/-- All options of a command, in the order `OptionConsumer._build`
iterates them (groups in order, members in order). -/
def Command.allOptions (c : Command) : List COption :=
  c.option_groups.flatten

/-- All declared short spellings of a command, in iteration order. -/
def Command.allShorts (c : Command) : List String :=
  (c.allOptions.map COption.short_options).flatten

/-- All declared long spellings of a command, in iteration order. -/
def Command.allLongs (c : Command) : List String :=
  (c.allOptions.map COption.long_options).flatten

/-! ## Consumers and Parser (`parser.py`) -/

/-- `CommandConsumer._build`: name → subcommand dict. -/
def CommandConsumer.build (c : Command) : List (String × Command) :=
  c.command_groups.flatten.foldl (fun m sub => dictInsert m sub.name sub) []

/-- `CommandConsumer.consume`. -/
def CommandConsumer.consume (cmap : List (String × Command)) (token : String) :
    Except Err Command :=
  match dictGet? cmap token with
  | none => .error (.cliParsing ("Unknown command: " ++ pyRepr token ++ "."))
  | some subcommand => .ok subcommand

/-- `ArgumentConsumer._build`: the flattened positional queue. -/
def ArgumentConsumer.build (c : Command) : List Argument :=
  c.argument_groups.flatten

/-- `ArgumentConsumer.consume`: the positional queue is `areader`, a
`Reader` over the argument declarations.  Mirrors the statement order:
bound check, `areader.get()`, adaptor call, `areader.put()` when the
declaration is `multiple`; an exception leaves earlier mutations. -/
def ArgumentConsumer.consume (ar : Reader Argument) (st : Store) (token : String) :
    Reader Argument × Store × Option Err :=
  if ar.is_eof then
    (ar, st, some (.cliParsing ("Too many arguments: " ++ pyRepr token ++ ".")))
  else
    match ar.get with
    | .error e => (ar, st, some e)
    | .ok (argument, ar1) =>
      let (st1, e) := invokeAdaptor st argument.adaptor [token] .CLI
      match e with
      | some e1 => (ar1, st1, some e1)
      | none =>
        if argument.multiple then
          match ar1.put with
          | .ok ar2 => (ar2, st1, none)
          | .error e1 => (ar1, st1, some e1)
        else (ar1, st1, none)

/-- The short-spelling insertions of one option in
`OptionConsumer._build` (conflict check before each insertion). -/
def OptionConsumer.insertShorts (o : COption) :
    List (String × COption) → List String → Except Err (List (String × COption))
  | m, [] => .ok m
  | m, k :: ks =>
    if (dictGet? m k).isSome then
      .error (.valueError ("Short option " ++ pyRepr k ++ " conflict detected."))
    else OptionConsumer.insertShorts o (dictInsert m k o) ks

/-- The long-spelling insertions of one option in
`OptionConsumer._build`. -/
def OptionConsumer.insertLongs (o : COption) :
    List (String × COption) → List String → Except Err (List (String × COption))
  | m, [] => .ok m
  | m, k :: ks =>
    if (dictGet? m k).isSome then
      .error (.valueError ("Long option " ++ pyRepr k ++ " conflict detected."))
    else OptionConsumer.insertLongs o (dictInsert m k o) ks

/-- The per-option body of `OptionConsumer._build`'s loops: shorts of
the option into `smap`, then its longs into `lmap`. -/
def OptionConsumer.buildLoop :
    List COption → List (String × COption) → List (String × COption) →
      Except Err (List (String × COption) × List (String × COption))
  | [], smap, lmap => .ok (smap, lmap)
  | o :: os, smap, lmap =>
    match OptionConsumer.insertShorts o smap o.short_options with
    | .error e => .error e
    | .ok smap1 =>
      match OptionConsumer.insertLongs o lmap o.long_options with
      | .error e => .error e
      | .ok lmap1 => OptionConsumer.buildLoop os smap1 lmap1

/-- `OptionConsumer._build`. -/
def OptionConsumer.build (c : Command) :
    Except Err (List (String × COption) × List (String × COption)) :=
  OptionConsumer.buildLoop c.option_groups.flatten [] []

/-- `OptionConsumer._get_long_option` (the adaptor is fetched from the
heap at the call sites). -/
def OptionConsumer.getLongOption (lmap : List (String × COption)) (name : String) :
    Except Err COption :=
  match dictGet? lmap name with
  | none => .error (.cliParsing ("Unknown option: " ++ pyRepr name ++ "."))
  | some option => .ok option

/-- `OptionConsumer._get_short_option`. -/
def OptionConsumer.getShortOption (smap : List (String × COption)) (name : String) :
    Except Err COption :=
  match dictGet? smap name with
  | none => .error (.cliParsing ("Unknown option: " ++ pyRepr name ++ "."))
  | some option => .ok option

/-- `OptionConsumer.consume_long`: strip `--`, branch on `=`. -/
def OptionConsumer.consume_long (lmap : List (String × COption)) (token0 : String)
    (r : Reader String) (st : Store) : Reader String × Store × Option Err :=
  let token := removePrefixStr token0 "--"
  match splitFirst token.toList '=' with
  | some (nameCs, valueCs) =>
    -- --option=value
    let name := String.mk nameCs
    let value := String.mk valueCs
    match OptionConsumer.getLongOption lmap name with
    | .error e => (r, st, some e)
    | .ok option =>
      if (st option.adaptor).num_values == 0 then
        (r, st, some (.cliParsing ("Option --" ++ pyRepr name ++ " does not take a value.")))
      else
        let (st1, e) := invokeAdaptor st option.adaptor [value] .CLI
        (r, st1, e)
  | none =>
    -- --option [value]
    match OptionConsumer.getLongOption lmap token with
    | .error e => (r, st, some e)
    | .ok option =>
      if (st option.adaptor).num_values == 0 then
        let (st1, e) := invokeAdaptor st option.adaptor [] .CLI
        (r, st1, e)
      else
        if r.is_eof then
          (r, st, some (.cliParsing ("Option --" ++ pyRepr token ++ " requires a value.")))
        else
          match r.get with
          | .error e => (r, st, some e)
          | .ok (value, r1) =>
            let (st1, e) := invokeAdaptor st option.adaptor [value] .CLI
            (r1, st1, e)

/-- The `while not creader.is_eof()` loop of
`OptionConsumer.consume_short`, with the character reader rendered
structurally: `rest = token.toList.drop cursor` is the unread part of
the cluster and `cursor` the character cursor after the previous
`creader.get()` calls, so `creader.is_eof()` after reading `name` is
`rest1 = []` and `token[creader.cursor:]` is `token.toList.drop
(cursor + 1)`. -/
def OptionConsumer.consume_short_loop (smap : List (String × COption)) (token : String) :
    List Char → Nat → Reader String → Store → Reader String × Store × Option Err
  | [], _, r, st => (r, st, none)
  | name :: rest1, cursor, r, st =>
    match OptionConsumer.getShortOption smap (String.mk [name]) with
    | .error e => (r, st, some e)
    | .ok option =>
      if (st option.adaptor).num_values == 0 then
        let (st1, e) := invokeAdaptor st option.adaptor [] .CLI
        match e with
        | some e1 => (r, st1, some e1)
        | none => OptionConsumer.consume_short_loop smap token rest1 (cursor + 1) r st1
      else
        if rest1.isEmpty = false then
          -- -ovalue
          let value := String.mk (token.toList.drop (cursor + 1))
          let (st1, e) := invokeAdaptor st option.adaptor [value] .CLI
          (r, st1, e)
        else
          -- -o value
          if r.is_eof then
            (r, st, some (.cliParsing ("Option -" ++ pyRepr (String.mk [name]) ++
              " requires a value.")))
          else
            match r.get with
            | .error e => (r, st, some e)
            | .ok (value, r1) =>
              let (st1, e) := invokeAdaptor st option.adaptor [value] .CLI
              (r1, st1, e)

/-- `OptionConsumer.consume_short`: strip one `-`, scan the cluster. -/
def OptionConsumer.consume_short (smap : List (String × COption)) (token0 : String)
    (r : Reader String) (st : Store) : Reader String × Store × Option Err :=
  let token := removePrefixStr token0 "-"
  OptionConsumer.consume_short_loop smap token token.toList 0 r st

/-! The consumers only ever advance the token reader (the parser never
calls `put` on it), which is what makes the per-node loops terminate. -/

theorem Reader.get_ok_mono {T : Type} {r r1 : Reader T} {t : T}
    (h : r.get = .ok (t, r1)) : r1.tokens = r.tokens ∧ r.cursor ≤ r1.cursor := by
  obtain ⟨ht, _, _, hc, _, _⟩ := Reader.get_ok h
  exact ⟨ht, by omega⟩

theorem OptionConsumer.consume_long_reader (lmap : List (String × COption))
    (token0 : String) (r : Reader String) (st : Store) :
    (OptionConsumer.consume_long lmap token0 r st).1.tokens = r.tokens ∧
      r.cursor ≤ (OptionConsumer.consume_long lmap token0 r st).1.cursor := by
  unfold OptionConsumer.consume_long
  dsimp only
  repeat' split
  all_goals first
    | exact ⟨rfl, Nat.le_refl _⟩
    | exact Reader.get_ok_mono (by assumption)

theorem OptionConsumer.consume_short_loop_reader (smap : List (String × COption))
    (token : String) (rest : List Char) (cursor : Nat) (r : Reader String) (st : Store) :
    (OptionConsumer.consume_short_loop smap token rest cursor r st).1.tokens = r.tokens ∧
      r.cursor ≤ (OptionConsumer.consume_short_loop smap token rest cursor r st).1.cursor := by
  induction rest generalizing cursor st with
  | nil => exact ⟨rfl, Nat.le_refl _⟩
  | cons name rest1 ih =>
    unfold OptionConsumer.consume_short_loop
    dsimp only
    repeat' split
    all_goals first
      | exact ⟨rfl, Nat.le_refl _⟩
      | exact ih (cursor + 1) _
      | exact Reader.get_ok_mono (by assumption)

theorem OptionConsumer.consume_short_reader (smap : List (String × COption))
    (token0 : String) (r : Reader String) (st : Store) :
    (OptionConsumer.consume_short smap token0 r st).1.tokens = r.tokens ∧
      r.cursor ≤ (OptionConsumer.consume_short smap token0 r st).1.cursor :=
  OptionConsumer.consume_short_loop_reader ..

/-- The `if double_hyphen:` tail loop of `Parser._parse_leaf`: every
remaining token goes to the argument consumer; by construction this
loop never consults the option maps. -/
def Parser.parse_leaf_hyphen_loop (r : Reader String) (ar : Reader Argument) (st : Store) :
    Reader String × Reader Argument × Store × Option Err :=
  if r.is_eof then (r, ar, st, none)
  else
    match hg : r.get with
    | .error e => (r, ar, st, some e)
    | .ok (token, r1) =>
      let res := ArgumentConsumer.consume ar st token
      match res.2.2 with
      | none => Parser.parse_leaf_hyphen_loop r1 res.1 res.2.1
      | some e => (r1, res.1, res.2.1, some e)
termination_by r.tokens.length - r.cursor
decreasing_by
  obtain ⟨ht, _, _, hc, hlt, _⟩ := Reader.get_ok hg
  rw [ht, hc]
  omega

/-- The main `while` loop of `Parser._parse_leaf`. -/
def Parser.parse_leaf_loop (smap lmap : List (String × COption))
    (r : Reader String) (ar : Reader Argument) (st : Store) :
    Reader String × Reader Argument × Store × Option Err :=
  if r.is_eof then (r, ar, st, none)
  else
    match hg : r.get with
    | .error e => (r, ar, st, some e)
    | .ok (token, r1) =>
      if token == "--" then Parser.parse_leaf_hyphen_loop r1 ar st
      else if startsWithStr token "--" then
        let res := OptionConsumer.consume_long lmap token r1 st
        match res.2.2 with
        | none => Parser.parse_leaf_loop smap lmap res.1 ar res.2.1
        | some e => (res.1, ar, res.2.1, some e)
      else if startsWithStr token "-" then
        let res := OptionConsumer.consume_short smap token r1 st
        match res.2.2 with
        | none => Parser.parse_leaf_loop smap lmap res.1 ar res.2.1
        | some e => (res.1, ar, res.2.1, some e)
      else
        let res := ArgumentConsumer.consume ar st token
        match res.2.2 with
        | none => Parser.parse_leaf_loop smap lmap r1 res.1 res.2.1
        | some e => (r1, res.1, res.2.1, some e)
termination_by r.tokens.length - r.cursor
decreasing_by
  · obtain ⟨ht, _, _, hcr, hlt, _⟩ := Reader.get_ok hg
    obtain ⟨h2t, h2c⟩ := OptionConsumer.consume_long_reader lmap token r1 st
    rw [h2t, ht]
    omega
  · obtain ⟨ht, _, _, hcr, hlt, _⟩ := Reader.get_ok hg
    obtain ⟨h2t, h2c⟩ := OptionConsumer.consume_short_reader smap token r1 st
    rw [h2t, ht]
    omega
  · obtain ⟨ht, _, _, hcr, hlt, _⟩ := Reader.get_ok hg
    rw [ht, hcr]
    omega

/-- The main `while` loop of `Parser._parse_node`, including the
embedded `if double_hyphen:` tail (whose body always returns within
its first iteration).  The last component is `ParserResult.command`. -/
def Parser.parse_node_loop (cmap : List (String × Command))
    (smap lmap : List (String × COption)) (r : Reader String) (st : Store) :
    Reader String × Store × Option Err × Option Command :=
  if r.is_eof then (r, st, none, none)
  else
    match hg : r.get with
    | .error e => (r, st, some e, none)
    | .ok (token, r1) =>
      if token == "--" then
        if r1.is_eof then (r1, st, none, none)
        else
          match r1.get with
          | .error e => (r1, st, some e, none)
          | .ok (token2, r2) =>
            match CommandConsumer.consume cmap token2 with
            | .error e => (r2, st, some e, none)
            | .ok subcommand => (r2, st, none, some subcommand)
      else if startsWithStr token "--" then
        let res := OptionConsumer.consume_long lmap token r1 st
        match res.2.2 with
        | none => Parser.parse_node_loop cmap smap lmap res.1 res.2.1
        | some e => (res.1, res.2.1, some e, none)
      else if startsWithStr token "-" then
        let res := OptionConsumer.consume_short smap token r1 st
        match res.2.2 with
        | none => Parser.parse_node_loop cmap smap lmap res.1 res.2.1
        | some e => (res.1, res.2.1, some e, none)
      else
        match CommandConsumer.consume cmap token with
        | .error e => (r1, st, some e, none)
        | .ok subcommand => (r1, st, none, some subcommand)
termination_by r.tokens.length - r.cursor
decreasing_by
  · obtain ⟨ht, _, _, hcr, hlt, _⟩ := Reader.get_ok hg
    obtain ⟨h2t, h2c⟩ := OptionConsumer.consume_long_reader lmap token r1 st
    rw [h2t, ht]
    omega
  · obtain ⟨ht, _, _, hcr, hlt, _⟩ := Reader.get_ok hg
    obtain ⟨h2t, h2c⟩ := OptionConsumer.consume_short_reader smap token r1 st
    rw [h2t, ht]
    omega

/-- The consumers `Parser.__init__` builds (after its mixed-groups
check succeeds). -/
structure ParserCtx where
  command : Command
  cmap : List (String × Command)
  aseq : List Argument
  smap : List (String × COption)
  lmap : List (String × COption)

/-- `Parser.__init__`: the mixed-groups check, then the three consumer
builds (only the option build can fail, with a `ValueError`). -/
def Parser.init (c : Command) : Except Err ParserCtx :=
  if !c.command_groups.isEmpty && !c.argument_groups.isEmpty then
    .error (.valueError "Command can not have both command groups and argument groups.")
  else
    match OptionConsumer.build c with
    | .error e => .error e
    | .ok (smap, lmap) =>
      .ok { command := c, cmap := CommandConsumer.build c,
            aseq := ArgumentConsumer.build c, smap := smap, lmap := lmap }

/-- The observable outcome of `Parser.parse`: final reader states, the
adaptor heap, the exception (if one was raised) and
`ParserResult.command`. -/
structure ParseOut where
  reader : Reader String
  areader : Reader Argument
  store : Store
  err : Option Err
  result : Option Command

/-- `Parser.parse`: dispatch on `Command.is_leaf`. -/
def Parser.parse (ctx : ParserCtx) (r : Reader String) (ar : Reader Argument)
    (st : Store) : ParseOut :=
  if ctx.command.is_leaf then
    let res := Parser.parse_leaf_loop ctx.smap ctx.lmap r ar st
    { reader := res.1, areader := res.2.1, store := res.2.2.1, err := res.2.2.2,
      result := none }
  else
    let res := Parser.parse_node_loop ctx.cmap ctx.smap ctx.lmap r st
    { reader := res.1, areader := ar, store := res.2.1, err := res.2.2.1,
      result := res.2.2.2 }

/-- One full parse at one node: fresh `Reader` over the token vector,
fresh positional queue, a given adaptor heap. -/
def Parser.run (ctx : ParserCtx) (tokens : List String) (st : Store) : ParseOut :=
  Parser.parse ctx (Reader.ofList tokens) (Reader.ofList ctx.aseq) st

/-! ## Supporting lemmas -/

theorem Reader.get_ok_not_eof {T : Type} {r r1 : Reader T} {t : T}
    (h : r.get = .ok (t, r1)) : r.is_eof = false := by
  unfold Reader.get at h
  unfold Reader.is_eof
  split at h
  · exact absurd h (by simp)
  · next hne => simpa using hne

theorem Adaptor.call_num_values (a : Adaptor) (values : List String) (source : ValueSource) :
    ((a.call values source).1).num_values = a.num_values := by
  unfold Adaptor.call
  repeat' split
  all_goals simp_all [Adaptor.num_values]

/-! ## Claims -/

/-- **C8.** The string choice validator built with choices
`["Android", "iOS"]`, `ignore_case = true`, `norm_case = true` maps the
input token `"ios"` to the canonical choice `"iOS"`. -/
theorem claim_C8 :
    StrChoiceValidator.call ⟨["Android", "iOS"], true, true⟩ "ios" = .ok "iOS" := by
  rfl

/-- **C9.** A list adaptor whose validator rejects the token on the
adaptor's first invocation (count 0) is not atomic: the value slot is
reset from the caller-supplied default `d` to the empty list while the
count stays 0 and the provenance is unchanged; a scalar adaptor whose
validator rejects is left entirely unchanged. -/
theorem claim_C9 (validator : String → Except String String)
    (d : Option (List String)) (d0 : Option String) (n : Nat) (src : ValueSource)
    (t m : String) (hv : validator t = .error m) :
    Adaptor.call ⟨.list validator d, 0, src⟩ [t] .CLI
        = (⟨.list validator (some []), 0, src⟩, some (.valueError m)) ∧
      Adaptor.call ⟨.scalar validator d0, n, src⟩ [t] .CLI
        = (⟨.scalar validator d0, n, src⟩, some (.valueError m)) := by
  unfold Adaptor.call
  simp [hv]

/-- **C9 witness.** -/
theorem claim_C9_witness :
    (fun (_ : String) => (Except.error "bad" : Except String String)) "x" = .error "bad" ∧
      (Adaptor.call ⟨.list (fun _ => .error "bad") (some ["d"]), 0, .ENV⟩ ["x"] .CLI
          = (⟨.list (fun _ => .error "bad") (some []), 0, .ENV⟩, some (.valueError "bad")) ∧
        Adaptor.call ⟨.scalar (fun _ => .error "bad") (some "d"), 2, .ENV⟩ ["x"] .CLI
          = (⟨.scalar (fun _ => .error "bad") (some "d"), 2, .ENV⟩, some (.valueError "bad"))) :=
  ⟨rfl, claim_C9 (fun _ => .error "bad") (some ["d"]) (some "d") 2 .ENV "x" "bad" rfl⟩

/-! One-iteration unfolding equations for the three parser loops, in a
non-dependent form usable for rewriting. -/

theorem Parser.parse_leaf_hyphen_loop_eof (r : Reader String) (ar : Reader Argument)
    (st : Store) (h : r.is_eof = true) :
    Parser.parse_leaf_hyphen_loop r ar st = (r, ar, st, none) := by
  rw [Parser.parse_leaf_hyphen_loop]
  rw [if_pos h]

theorem Parser.parse_leaf_hyphen_loop_step (r r1 : Reader String) (token : String)
    (ar : Reader Argument) (st : Store) (hGet : r.get = .ok (token, r1)) :
    Parser.parse_leaf_hyphen_loop r ar st =
      (let res := ArgumentConsumer.consume ar st token
       match res.2.2 with
       | none => Parser.parse_leaf_hyphen_loop r1 res.1 res.2.1
       | some e => (r1, res.1, res.2.1, some e)) := by
  have hEof := Reader.get_ok_not_eof hGet
  conv_lhs => rw [Parser.parse_leaf_hyphen_loop]
  rw [if_neg (by simp [hEof])]
  split
  · rename_i e heq
    rw [hGet] at heq
    exact absurd heq (by simp)
  · rename_i token2 r2 heq
    rw [hGet] at heq
    injection heq with hpair
    injection hpair with h1 h2
    subst h1; subst h2
    rfl

theorem Parser.parse_leaf_loop_eof (smap lmap : List (String × COption))
    (r : Reader String) (ar : Reader Argument) (st : Store) (h : r.is_eof = true) :
    Parser.parse_leaf_loop smap lmap r ar st = (r, ar, st, none) := by
  rw [Parser.parse_leaf_loop]
  rw [if_pos h]

theorem Parser.parse_leaf_loop_step (smap lmap : List (String × COption))
    (r r1 : Reader String) (token : String) (ar : Reader Argument) (st : Store)
    (hGet : r.get = .ok (token, r1)) :
    Parser.parse_leaf_loop smap lmap r ar st =
      (if token == "--" then Parser.parse_leaf_hyphen_loop r1 ar st
       else if startsWithStr token "--" then
        let res := OptionConsumer.consume_long lmap token r1 st
        match res.2.2 with
        | none => Parser.parse_leaf_loop smap lmap res.1 ar res.2.1
        | some e => (res.1, ar, res.2.1, some e)
       else if startsWithStr token "-" then
        let res := OptionConsumer.consume_short smap token r1 st
        match res.2.2 with
        | none => Parser.parse_leaf_loop smap lmap res.1 ar res.2.1
        | some e => (res.1, ar, res.2.1, some e)
       else
        let res := ArgumentConsumer.consume ar st token
        match res.2.2 with
        | none => Parser.parse_leaf_loop smap lmap r1 res.1 res.2.1
        | some e => (r1, res.1, res.2.1, some e)) := by
  have hEof := Reader.get_ok_not_eof hGet
  conv_lhs => rw [Parser.parse_leaf_loop]
  rw [if_neg (by simp [hEof])]
  split
  · rename_i e heq
    rw [hGet] at heq
    exact absurd heq (by simp)
  · rename_i token2 r2 heq
    rw [hGet] at heq
    injection heq with hpair
    injection hpair with h1 h2
    subst h1; subst h2
    rfl

theorem Parser.parse_node_loop_eof (cmap : List (String × Command))
    (smap lmap : List (String × COption)) (r : Reader String) (st : Store)
    (h : r.is_eof = true) :
    Parser.parse_node_loop cmap smap lmap r st = (r, st, none, none) := by
  rw [Parser.parse_node_loop]
  rw [if_pos h]

theorem Parser.parse_node_loop_step (cmap : List (String × Command))
    (smap lmap : List (String × COption)) (r r1 : Reader String) (token : String)
    (st : Store) (hGet : r.get = .ok (token, r1)) :
    Parser.parse_node_loop cmap smap lmap r st =
      (if token == "--" then
        (if r1.is_eof then (r1, st, none, none)
         else
          match r1.get with
          | .error e => (r1, st, some e, none)
          | .ok (token2, r2) =>
            match CommandConsumer.consume cmap token2 with
            | .error e => (r2, st, some e, none)
            | .ok subcommand => (r2, st, none, some subcommand))
       else if startsWithStr token "--" then
        let res := OptionConsumer.consume_long lmap token r1 st
        match res.2.2 with
        | none => Parser.parse_node_loop cmap smap lmap res.1 res.2.1
        | some e => (res.1, res.2.1, some e, none)
       else if startsWithStr token "-" then
        let res := OptionConsumer.consume_short smap token r1 st
        match res.2.2 with
        | none => Parser.parse_node_loop cmap smap lmap res.1 res.2.1
        | some e => (res.1, res.2.1, some e, none)
       else
        match CommandConsumer.consume cmap token with
        | .error e => (r1, st, some e, none)
        | .ok subcommand => (r1, st, none, some subcommand)) := by
  have hEof := Reader.get_ok_not_eof hGet
  conv_lhs => rw [Parser.parse_node_loop]
  rw [if_neg (by simp [hEof])]
  split
  · rename_i e heq
    rw [hGet] at heq
    exact absurd heq (by simp)
  · rename_i token2 r2 heq
    rw [hGet] at heq
    injection heq with hpair
    injection hpair with h1 h2
    subst h1; subst h2
    rfl

/-- A plain adaptor heap used by the concrete witnesses. -/
def sampleStore : Store := fun _ => ⟨.onFlag (some false), 0, .DEFAULT⟩

/-- **C10.** At any node, a token that is exactly `"-"` is consumed as
a short-option cluster over zero characters: `consume_short` leaves
the reader, the adaptor heap, and the error state untouched, and both
the leaf and the interior per-node loop continue with the next token —
the token is never dispatched to the positional-argument or subcommand
consumer. -/
theorem claim_C10 (cmap : List (String × Command)) (smap lmap : List (String × COption))
    (r r1 : Reader String) (ar : Reader Argument) (st : Store)
    (hGet : r.get = .ok ("-", r1)) :
    OptionConsumer.consume_short smap "-" r1 st = (r1, st, none) ∧
      Parser.parse_leaf_loop smap lmap r ar st = Parser.parse_leaf_loop smap lmap r1 ar st ∧
      Parser.parse_node_loop cmap smap lmap r st = Parser.parse_node_loop cmap smap lmap r1 st := by
  refine ⟨rfl, ?_, ?_⟩
  · rw [Parser.parse_leaf_loop_step smap lmap r r1 "-" ar st hGet]
    have h2 : startsWithStr "-" "--" = false := by decide
    have h3 : startsWithStr "-" "-" = true := by decide
    have hcs : OptionConsumer.consume_short smap "-" r1 st = (r1, st, none) := rfl
    simp [h2, h3, hcs]
  · rw [Parser.parse_node_loop_step cmap smap lmap r r1 "-" st hGet]
    have h2 : startsWithStr "-" "--" = false := by decide
    have h3 : startsWithStr "-" "-" = true := by decide
    have hcs : OptionConsumer.consume_short smap "-" r1 st = (r1, st, none) := rfl
    simp [h2, h3, hcs]

/-- **C10 witness.** -/
theorem claim_C10_witness :
    (Reader.ofList ["-", "x"]).get = .ok ("-", ⟨["-", "x"], 0, 2, 1⟩) ∧
      (OptionConsumer.consume_short [] "-" ⟨["-", "x"], 0, 2, 1⟩ sampleStore
          = (⟨["-", "x"], 0, 2, 1⟩, sampleStore, none) ∧
        Parser.parse_leaf_loop [] [] (Reader.ofList ["-", "x"]) (Reader.ofList []) sampleStore
            = Parser.parse_leaf_loop [] [] ⟨["-", "x"], 0, 2, 1⟩ (Reader.ofList []) sampleStore ∧
        Parser.parse_node_loop [] [] [] (Reader.ofList ["-", "x"]) sampleStore
            = Parser.parse_node_loop [] [] [] ⟨["-", "x"], 0, 2, 1⟩ sampleStore) :=
  ⟨rfl, claim_C10 [] [] [] (Reader.ofList ["-", "x"]) ⟨["-", "x"], 0, 2, 1⟩
    (Reader.ofList []) sampleStore rfl⟩

/-- **C4.** When the positional queue's current declaration has the
`multiple` flag, a bare token produces exactly one driver invocation
with that single token, and — when the invocation succeeds — the queue
is left where it was (`get` then `put`), so the same declaration is
retried for the next bare token. -/
theorem claim_C4 (ar ar1 : Reader Argument) (argument : Argument) (st : Store)
    (token : String) (hGet : ar.get = .ok (argument, ar1))
    (hMul : argument.multiple = true) (hStart : ar.start ≤ ar.cursor)
    (hOk : ((st argument.adaptor).call [token] .CLI).2 = none) :
    ArgumentConsumer.consume ar st token =
      (ar, Store.set st argument.adaptor ((st argument.adaptor).call [token] .CLI).1,
        none) := by
  have hEof := Reader.get_ok_not_eof hGet
  obtain ⟨ht, hs, he, hc, hlt, _⟩ := Reader.get_ok hGet
  have hput : ar1.put = .ok ar := by
    unfold Reader.put
    rw [if_neg (by simp only [beq_iff_eq, hc, hs]; omega)]
    congr 1
    rcases ar with ⟨t, s, e, c⟩
    rcases ar1 with ⟨t1, s1, e1, c1⟩
    simp only at ht hs he hc
    subst ht; subst hs; subst he
    simp [hc]
  simp [ArgumentConsumer.consume, hEof, hGet, invokeAdaptor, hOk, hMul, hput]

/-- A `multiple` positional declaration and a matching heap for the C4
witness. -/
def argM_W : Argument :=
  { id := "files", adaptor := "files", multiple := true, required := true }

def scalarStore_W : Store := fun _ => ⟨.list StrValidator none, 0, .DEFAULT⟩

/-- **C4 witness.** -/
theorem claim_C4_witness :
    (Reader.ofList [argM_W]).get = .ok (argM_W, ⟨[argM_W], 0, 1, 1⟩) ∧
      argM_W.multiple = true ∧
      (Reader.ofList [argM_W]).start ≤ (Reader.ofList [argM_W]).cursor ∧
      ((scalarStore_W argM_W.adaptor).call ["x"] .CLI).2 = none ∧
      ArgumentConsumer.consume (Reader.ofList [argM_W]) scalarStore_W "x" =
        (Reader.ofList [argM_W],
          Store.set scalarStore_W argM_W.adaptor
            ((scalarStore_W argM_W.adaptor).call ["x"] .CLI).1, none) :=
  ⟨rfl, rfl, Nat.le_refl _, rfl,
    claim_C4 (Reader.ofList [argM_W]) ⟨[argM_W], 0, 1, 1⟩ argM_W scalarStore_W "x"
      rfl rfl (Nat.le_refl _) rfl⟩

/-! ### C5: the Reader contract -/

/-- One `get`/`put` call in a call sequence on a `Reader`. -/
inductive ROp where
  | get
  | put
deriving DecidableEq, Repr

/-- The reader state after one call (a call that raises leaves the
state unchanged: both `get` and `put` check before mutating). -/
def Reader.step {T : Type} (r : Reader T) : ROp → Reader T
  | .get =>
    match r.get with
    | .ok (_, r1) => r1
    | .error _ => r
  | .put =>
    match r.put with
    | .ok r1 => r1
    | .error _ => r

/-- The reader state after a sequence of calls. -/
def Reader.steps {T : Type} (r : Reader T) : List ROp → Reader T
  | [] => r
  | op :: ops => (r.step op).steps ops

theorem Reader.step_frame {T : Type} (r : Reader T) (op : ROp) :
    (r.step op).tokens = r.tokens ∧ (r.step op).start = r.start ∧
      (r.step op).end_ = r.end_ := by
  cases op
  · rcases hg : r.get with e | ⟨t, r1⟩
    · simp [Reader.step, hg]
    · obtain ⟨ht, hs, he, _, _, _⟩ := Reader.get_ok hg
      simp [Reader.step, hg, ht, hs, he]
  · rcases hp : r.put with e | r1
    · simp [Reader.step, hp]
    · have hfr : r1.tokens = r.tokens ∧ r1.start = r.start ∧ r1.end_ = r.end_ := by
        unfold Reader.put at hp
        split at hp
        · exact absurd hp (by simp)
        · simp only [Except.ok.injEq] at hp
          subst hp
          exact ⟨rfl, rfl, rfl⟩
      simp [Reader.step, hp, hfr.1, hfr.2.1, hfr.2.2]

theorem Reader.steps_frame {T : Type} (r : Reader T) (ops : List ROp) :
    (r.steps ops).tokens = r.tokens ∧ (r.steps ops).start = r.start ∧
      (r.steps ops).end_ = r.end_ := by
  induction ops generalizing r with
  | nil => exact ⟨rfl, rfl, rfl⟩
  | cons op ops ih =>
    obtain ⟨h1, h2, h3⟩ := Reader.step_frame r op
    obtain ⟨g1, g2, g3⟩ := ih (r.step op)
    exact ⟨g1.trans h1, g2.trans h2, g3.trans h3⟩

/-- **C5.** For a well-formed `Reader` (bounds `[start, end)` inside
the backing sequence): `get` fails with the out-of-range error exactly
when `is_eof()` holds; `put` fails with the out-of-range error exactly
when the cursor is at the start bound; any two `get`/`put` call
sequences only move the cursor (tokens and bounds are preserved), so
whenever they land on the same cursor the whole reader states agree
and every subsequent `get` output is reproduced. -/
theorem claim_C5 {T : Type} (r : Reader T) (hWF : r.WF) (ops1 ops2 : List ROp) :
    (r.get = .error (.indexError "index out of range") ↔ r.is_eof = true) ∧
      (r.put = .error (.indexError "index out of range") ↔ r.cursor = r.start) ∧
      (r.steps ops1).tokens = r.tokens ∧ (r.steps ops1).start = r.start ∧
      (r.steps ops1).end_ = r.end_ ∧
      ((r.steps ops1).cursor = (r.steps ops2).cursor →
        r.steps ops1 = r.steps ops2 ∧
          (r.steps ops1).get = (r.steps ops2).get) := by
  obtain ⟨w1, w2, w3⟩ := hWF
  obtain ⟨f1, f2, f3⟩ := Reader.steps_frame r ops1
  obtain ⟨g1, g2, g3⟩ := Reader.steps_frame r ops2
  refine ⟨?_, ?_, f1, f2, f3, ?_⟩
  · unfold Reader.get Reader.is_eof
    constructor
    · intro h
      split at h
      · next hc => simpa using hc
      · next hc =>
        exfalso
        have hlt : r.cursor < r.tokens.length := by
          simp only [beq_iff_eq] at hc
          omega
        rw [List.get?_eq_get hlt] at h
        exact absurd h (by simp)
    · intro h
      rw [if_pos (by simpa using h)]
  · unfold Reader.put
    constructor
    · intro h
      split at h
      · next hc => simpa using hc
      · exact absurd h (by simp)
    · intro h
      rw [if_pos (by simpa using h)]
  · intro hcur
    have heq : r.steps ops1 = r.steps ops2 := by
      rcases h1 : r.steps ops1 with ⟨t1, s1, e1, c1⟩
      rcases h2 : r.steps ops2 with ⟨t2, s2, e2, c2⟩
      rw [h1] at f1 f2 f3 hcur
      rw [h2] at g1 g2 g3 hcur
      simp only at f1 f2 f3 g1 g2 g3 hcur
      congr 1
      · exact f1.trans g1.symm
      · exact f2.trans g2.symm
      · exact f3.trans g3.symm
    exact ⟨heq, by rw [heq]⟩

/-- **C5 witness.** -/
theorem claim_C5_witness :
    (Reader.ofList ["a", "b"]).WF ∧
      ((Reader.ofList ["a", "b"]).get = .error (.indexError "index out of range") ↔
          (Reader.ofList ["a", "b"]).is_eof = true) ∧
      ((Reader.ofList ["a", "b"]).put = .error (.indexError "index out of range") ↔
          (Reader.ofList ["a", "b"]).cursor = (Reader.ofList ["a", "b"]).start) ∧
      ((Reader.ofList ["a", "b"]).steps [.get, .put]).tokens = (Reader.ofList ["a", "b"]).tokens ∧
      ((Reader.ofList ["a", "b"]).steps [.get, .put]).start = (Reader.ofList ["a", "b"]).start ∧
      ((Reader.ofList ["a", "b"]).steps [.get, .put]).end_ = (Reader.ofList ["a", "b"]).end_ ∧
      (((Reader.ofList ["a", "b"]).steps [.get, .put]).cursor =
          ((Reader.ofList ["a", "b"]).steps []).cursor →
        (Reader.ofList ["a", "b"]).steps [.get, .put] = (Reader.ofList ["a", "b"]).steps [] ∧
          ((Reader.ofList ["a", "b"]).steps [.get, .put]).get =
            ((Reader.ofList ["a", "b"]).steps []).get) :=
  ⟨by decide, claim_C5 (Reader.ofList ["a", "b"]) (by decide) [.get, .put] []⟩

/-- **C1.** At any node (leaf or interior) with a long option `foo`
whose adaptor takes one value, parsing `["--foo", "v"]` and parsing
`["--foo=v"]` from the same heap both perform exactly one
command-line-provenance invocation of that adaptor with the single
value `"v"` — so the bound driver state and the raised error agree
between the two spellings; when the adaptor is a scalar whose
validator accepts `"v"`, the stored value is the validated `"v"`, the
provenance is command-line and the count is incremented by one. -/
theorem claim_C1 (c : Command) (ctx : ParserCtx) (st : Store) (option : COption)
    (validator : String → Except String String) (v0 : Option String) (n : Nat)
    (src : ValueSource) (w : String)
    (hInit : Parser.init c = .ok ctx)
    (hLook : dictGet? ctx.lmap "foo" = some option)
    (hNum : (st option.adaptor).num_values = 1) :
    ((Parser.run ctx ["--foo", "v"] st).store, (Parser.run ctx ["--foo", "v"] st).err)
        = invokeAdaptor st option.adaptor ["v"] .CLI ∧
      ((Parser.run ctx ["--foo=v"] st).store, (Parser.run ctx ["--foo=v"] st).err)
        = invokeAdaptor st option.adaptor ["v"] .CLI ∧
      (Parser.run ctx ["--foo", "v"] st).result = none ∧
      (Parser.run ctx ["--foo=v"] st).result = none ∧
      (st option.adaptor = ⟨.scalar validator v0, n, src⟩ → validator "v" = .ok w →
        (Parser.run ctx ["--foo", "v"] st).store option.adaptor
            = ⟨.scalar validator (some w), n + 1, .CLI⟩ ∧
          (Parser.run ctx ["--foo", "v"] st).err = none) := by
  -- consuming "--foo" with the value taken from the reader
  have hcl1 : OptionConsumer.consume_long ctx.lmap "--foo" ⟨["--foo", "v"], 0, 2, 1⟩ st
      = (⟨["--foo", "v"], 0, 2, 2⟩, (invokeAdaptor st option.adaptor ["v"] .CLI).1,
          (invokeAdaptor st option.adaptor ["v"] .CLI).2) := by
    have e1 : removePrefixStr "--foo" "--" = "foo" := by decide
    have e2 : splitFirst ['f', 'o', 'o'] '=' = none := by decide
    have e3 : (⟨["--foo", "v"], 0, 2, 1⟩ : Reader String).get
        = .ok ("v", ⟨["--foo", "v"], 0, 2, 2⟩) := rfl
    have e4 : (⟨["--foo", "v"], 0, 2, 1⟩ : Reader String).is_eof = false := rfl
    simp [OptionConsumer.consume_long, OptionConsumer.getLongOption, e1, e2, e3, e4,
      hLook, hNum]
  -- consuming "--foo=v" with the value split off the token
  have hcl2 : OptionConsumer.consume_long ctx.lmap "--foo=v" ⟨["--foo=v"], 0, 1, 1⟩ st
      = (⟨["--foo=v"], 0, 1, 1⟩, (invokeAdaptor st option.adaptor ["v"] .CLI).1,
          (invokeAdaptor st option.adaptor ["v"] .CLI).2) := by
    have e1 : removePrefixStr "--foo=v" "--" = "foo=v" := by decide
    have e2 : splitFirst ['f', 'o', 'o', '=', 'v'] '=' = some (['f', 'o', 'o'], ['v']) := by
      decide
    have e3 : String.mk ['f', 'o', 'o'] = "foo" := rfl
    have e4 : String.mk ['v'] = "v" := rfl
    simp [OptionConsumer.consume_long, OptionConsumer.getLongOption, e1, e2, e3, e4,
      hLook, hNum]
  have hb1 : ("--foo" == "--") = false := by decide
  have hb2 : startsWithStr "--foo" "--" = true := by decide
  have hb3 : ("--foo=v" == "--") = false := by decide
  have hb4 : startsWithStr "--foo=v" "--" = true := by decide
  -- the two parses at a leaf node
  have hleaf1 : ∀ ar : Reader Argument,
      Parser.parse_leaf_loop ctx.smap ctx.lmap (Reader.ofList ["--foo", "v"]) ar st
        = (⟨["--foo", "v"], 0, 2, 2⟩, ar, (invokeAdaptor st option.adaptor ["v"] .CLI).1,
            (invokeAdaptor st option.adaptor ["v"] .CLI).2) := by
    intro ar
    rw [Parser.parse_leaf_loop_step ctx.smap ctx.lmap (Reader.ofList ["--foo", "v"])
      ⟨["--foo", "v"], 0, 2, 1⟩ "--foo" ar st rfl]
    rw [if_neg (by simp [hb1]), if_pos hb2, hcl1]
    rcases he : (invokeAdaptor st option.adaptor ["v"] .CLI).2 with _ | e
    · simp only [he]
      rw [Parser.parse_leaf_loop_eof ctx.smap ctx.lmap ⟨["--foo", "v"], 0, 2, 2⟩ ar
        (invokeAdaptor st option.adaptor ["v"] .CLI).1 rfl]
    · simp only [he]
  have hleaf2 : ∀ ar : Reader Argument,
      Parser.parse_leaf_loop ctx.smap ctx.lmap (Reader.ofList ["--foo=v"]) ar st
        = (⟨["--foo=v"], 0, 1, 1⟩, ar, (invokeAdaptor st option.adaptor ["v"] .CLI).1,
            (invokeAdaptor st option.adaptor ["v"] .CLI).2) := by
    intro ar
    rw [Parser.parse_leaf_loop_step ctx.smap ctx.lmap (Reader.ofList ["--foo=v"])
      ⟨["--foo=v"], 0, 1, 1⟩ "--foo=v" ar st rfl]
    rw [if_neg (by simp [hb3]), if_pos hb4, hcl2]
    rcases he : (invokeAdaptor st option.adaptor ["v"] .CLI).2 with _ | e
    · simp only [he]
      rw [Parser.parse_leaf_loop_eof ctx.smap ctx.lmap ⟨["--foo=v"], 0, 1, 1⟩ ar
        (invokeAdaptor st option.adaptor ["v"] .CLI).1 rfl]
    · simp only [he]
  -- the two parses at an interior node
  have hnode1 : Parser.parse_node_loop ctx.cmap ctx.smap ctx.lmap
        (Reader.ofList ["--foo", "v"]) st
      = (⟨["--foo", "v"], 0, 2, 2⟩, (invokeAdaptor st option.adaptor ["v"] .CLI).1,
          (invokeAdaptor st option.adaptor ["v"] .CLI).2, none) := by
    rw [Parser.parse_node_loop_step ctx.cmap ctx.smap ctx.lmap (Reader.ofList ["--foo", "v"])
      ⟨["--foo", "v"], 0, 2, 1⟩ "--foo" st rfl]
    rw [if_neg (by simp [hb1]), if_pos hb2, hcl1]
    rcases he : (invokeAdaptor st option.adaptor ["v"] .CLI).2 with _ | e
    · simp only [he]
      rw [Parser.parse_node_loop_eof ctx.cmap ctx.smap ctx.lmap ⟨["--foo", "v"], 0, 2, 2⟩
        (invokeAdaptor st option.adaptor ["v"] .CLI).1 rfl]
    · simp only [he]
  have hnode2 : Parser.parse_node_loop ctx.cmap ctx.smap ctx.lmap
        (Reader.ofList ["--foo=v"]) st
      = (⟨["--foo=v"], 0, 1, 1⟩, (invokeAdaptor st option.adaptor ["v"] .CLI).1,
          (invokeAdaptor st option.adaptor ["v"] .CLI).2, none) := by
    rw [Parser.parse_node_loop_step ctx.cmap ctx.smap ctx.lmap (Reader.ofList ["--foo=v"])
      ⟨["--foo=v"], 0, 1, 1⟩ "--foo=v" st rfl]
    rw [if_neg (by simp [hb3]), if_pos hb4, hcl2]
    rcases he : (invokeAdaptor st option.adaptor ["v"] .CLI).2 with _ | e
    · simp only [he]
      rw [Parser.parse_node_loop_eof ctx.cmap ctx.smap ctx.lmap ⟨["--foo=v"], 0, 1, 1⟩
        (invokeAdaptor st option.adaptor ["v"] .CLI).1 rfl]
    · simp only [he]
  have hout : ∀ tokens : List String,
      ((Parser.run ctx tokens st).store, (Parser.run ctx tokens st).err,
        (Parser.run ctx tokens st).result)
        = ((invokeAdaptor st option.adaptor ["v"] .CLI).1,
            (invokeAdaptor st option.adaptor ["v"] .CLI).2, none) →
      ((Parser.run ctx tokens st).store, (Parser.run ctx tokens st).err)
          = invokeAdaptor st option.adaptor ["v"] .CLI ∧
        (Parser.run ctx tokens st).result = none := by
    intro tokens h
    simp only [Prod.mk.injEq] at h
    exact ⟨Prod.ext h.1 h.2.1, h.2.2⟩
  have main1 : ((Parser.run ctx ["--foo", "v"] st).store,
        (Parser.run ctx ["--foo", "v"] st).err, (Parser.run ctx ["--foo", "v"] st).result)
      = ((invokeAdaptor st option.adaptor ["v"] .CLI).1,
          (invokeAdaptor st option.adaptor ["v"] .CLI).2, none) := by
    unfold Parser.run Parser.parse
    by_cases hLeaf : ctx.command.is_leaf = true
    · rw [if_pos hLeaf, hleaf1 (Reader.ofList ctx.aseq)]
    · rw [if_neg hLeaf, hnode1]
  have main2 : ((Parser.run ctx ["--foo=v"] st).store,
        (Parser.run ctx ["--foo=v"] st).err, (Parser.run ctx ["--foo=v"] st).result)
      = ((invokeAdaptor st option.adaptor ["v"] .CLI).1,
          (invokeAdaptor st option.adaptor ["v"] .CLI).2, none) := by
    unfold Parser.run Parser.parse
    by_cases hLeaf : ctx.command.is_leaf = true
    · rw [if_pos hLeaf, hleaf2 (Reader.ofList ctx.aseq)]
    · rw [if_neg hLeaf, hnode2]
  obtain ⟨m1, m1r⟩ := hout _ main1
  obtain ⟨m2, m2r⟩ := hout _ main2
  refine ⟨m1, m2, m1r, m2r, ?_⟩
  intro hSc hVal
  have hcall : (st option.adaptor).call ["v"] .CLI
      = (⟨.scalar validator (some w), n + 1, .CLI⟩, none) := by
    rw [hSc]
    simp [Adaptor.call, hVal]
  have hinv : invokeAdaptor st option.adaptor ["v"] .CLI
      = (Store.set st option.adaptor ⟨.scalar validator (some w), n + 1, .CLI⟩, none) := by
    simp [invokeAdaptor, hcall]
  constructor
  · have : (Parser.run ctx ["--foo", "v"] st).store
        = Store.set st option.adaptor ⟨.scalar validator (some w), n + 1, .CLI⟩ := by
      have := congrArg Prod.fst m1
      simpa [hinv] using this
    rw [this]
    unfold Store.set
    rw [if_pos rfl]
  · have := congrArg Prod.snd m1
    simpa [hinv] using this

/-- Concrete grammar for the C1 witness: one leaf command with one
long option `--foo` bound to a scalar adaptor. -/
def optFoo_W : COption :=
  { id := "foo", long_options := ["foo"], short_options := [], adaptor := "fooA",
    multiple := true, required := false }

def cmdC1_W : Command := .mk "prog" [] [] [[optFoo_W]]

def ctxC1_W : ParserCtx :=
  { command := cmdC1_W, cmap := [], aseq := [], smap := [], lmap := [("foo", optFoo_W)] }

def fooStore_W : Store := fun _ => ⟨.scalar StrValidator none, 0, .DEFAULT⟩

/-- **C1 witness.** -/
theorem claim_C1_witness :
    Parser.init cmdC1_W = .ok ctxC1_W ∧
      dictGet? ctxC1_W.lmap "foo" = some optFoo_W ∧
      (fooStore_W optFoo_W.adaptor).num_values = 1 ∧
      (((Parser.run ctxC1_W ["--foo", "v"] fooStore_W).store,
          (Parser.run ctxC1_W ["--foo", "v"] fooStore_W).err)
          = invokeAdaptor fooStore_W optFoo_W.adaptor ["v"] .CLI ∧
        ((Parser.run ctxC1_W ["--foo=v"] fooStore_W).store,
          (Parser.run ctxC1_W ["--foo=v"] fooStore_W).err)
          = invokeAdaptor fooStore_W optFoo_W.adaptor ["v"] .CLI ∧
        (Parser.run ctxC1_W ["--foo", "v"] fooStore_W).result = none ∧
        (Parser.run ctxC1_W ["--foo=v"] fooStore_W).result = none ∧
        (fooStore_W optFoo_W.adaptor = ⟨.scalar StrValidator none, 0, .DEFAULT⟩ →
          StrValidator "v" = .ok "v" →
          (Parser.run ctxC1_W ["--foo", "v"] fooStore_W).store optFoo_W.adaptor
              = ⟨.scalar StrValidator (some "v"), 0 + 1, .CLI⟩ ∧
            (Parser.run ctxC1_W ["--foo", "v"] fooStore_W).err = none)) :=
  ⟨rfl, rfl, rfl,
    claim_C1 cmdC1_W ctxC1_W fooStore_W optFoo_W StrValidator none 0 .DEFAULT "v"
      rfl rfl rfl⟩

/-- **C2.** At any node declaring zero-value short options `a` and
`b`, parsing the cluster `["-ab"]` and parsing `["-a", "-b"]` from the
same heap both perform the same two command-line adaptor invocations,
in the same order (`a`'s adaptor first, then `b`'s, stopping at the
first raise) — so the resulting driver state and error agree. -/
theorem claim_C2 (c : Command) (ctx : ParserCtx) (st : Store) (oa ob : COption)
    (hInit : Parser.init c = .ok ctx)
    (hLa : dictGet? ctx.smap "a" = some oa)
    (hLb : dictGet? ctx.smap "b" = some ob)
    (hNa : (st oa.adaptor).num_values = 0)
    (hNb : (st ob.adaptor).num_values = 0) :
    ((Parser.run ctx ["-ab"] st).store, (Parser.run ctx ["-ab"] st).err)
        = invokeSeq st [(oa.adaptor, []), (ob.adaptor, [])] ∧
      ((Parser.run ctx ["-a", "-b"] st).store, (Parser.run ctx ["-a", "-b"] st).err)
        = invokeSeq st [(oa.adaptor, []), (ob.adaptor, [])] ∧
      (Parser.run ctx ["-ab"] st).result = none ∧
      (Parser.run ctx ["-a", "-b"] st).result = none := by
  -- the num_values of b's adaptor is unchanged by a's invocation
  have hNb1 : ((invokeAdaptor st oa.adaptor [] .CLI).1 ob.adaptor).num_values = 0 := by
    show ((Store.set st oa.adaptor ((st oa.adaptor).call [] .CLI).1) ob.adaptor).num_values = 0
    unfold Store.set
    by_cases h : ob.adaptor = oa.adaptor
    · rw [if_pos h, Adaptor.call_num_values]
      exact hNa
    · rw [if_neg h, hNb]
  have ea : String.mk ['a'] = "a" := rfl
  have eb : String.mk ['b'] = "b" := rfl
  -- the cluster "-ab" performs the two invocations in sequence
  have hcs_ab : ∀ r : Reader String,
      OptionConsumer.consume_short ctx.smap "-ab" r st
        = (r, (invokeSeq st [(oa.adaptor, []), (ob.adaptor, [])]).1,
            (invokeSeq st [(oa.adaptor, []), (ob.adaptor, [])]).2) := by
    intro r
    have e0 : removePrefixStr "-ab" "-" = "ab" := by decide
    have etl : "ab".toList = ['a', 'b'] := rfl
    simp only [OptionConsumer.consume_short, e0, etl]
    simp only [OptionConsumer.consume_short_loop, OptionConsumer.getShortOption,
      ea, eb, hLa, hLb, hNa, hNb1]
    rcases he1 : (invokeAdaptor st oa.adaptor [] .CLI).2 with _ | x1
    · simp only [he1]
      rcases he2 : (invokeAdaptor (invokeAdaptor st oa.adaptor [] .CLI).1
          ob.adaptor [] .CLI).2 with _ | x2
      · simp [invokeSeq, he1, he2]
      · simp [invokeSeq, he1, he2]
    · simp [invokeSeq, he1]
  -- "-a" and "-b" each perform one invocation
  have hcs_a : ∀ (r : Reader String),
      OptionConsumer.consume_short ctx.smap "-a" r st
        = (r, (invokeAdaptor st oa.adaptor [] .CLI).1,
            (invokeAdaptor st oa.adaptor [] .CLI).2) := by
    intro r
    have e0 : removePrefixStr "-a" "-" = "a" := by decide
    have etl : "a".toList = ['a'] := rfl
    simp only [OptionConsumer.consume_short, e0, etl]
    simp only [OptionConsumer.consume_short_loop, OptionConsumer.getShortOption, ea, hLa, hNa]
    rcases he1 : (invokeAdaptor st oa.adaptor [] .CLI).2 with _ | x1 <;> simp [he1]
  have hcs_b : ∀ (r : Reader String),
      OptionConsumer.consume_short ctx.smap "-b" r (invokeAdaptor st oa.adaptor [] .CLI).1
        = (r, (invokeAdaptor (invokeAdaptor st oa.adaptor [] .CLI).1 ob.adaptor [] .CLI).1,
            (invokeAdaptor (invokeAdaptor st oa.adaptor [] .CLI).1 ob.adaptor [] .CLI).2) := by
    intro r
    have e0 : removePrefixStr "-b" "-" = "b" := by decide
    have etl : "b".toList = ['b'] := rfl
    simp only [OptionConsumer.consume_short, e0, etl]
    simp only [OptionConsumer.consume_short_loop, OptionConsumer.getShortOption, eb, hLb, hNb1]
    rcases he2 : (invokeAdaptor (invokeAdaptor st oa.adaptor [] .CLI).1
        ob.adaptor [] .CLI).2 with _ | x2 <;> simp [he2]
  have hb1 : ("-ab" == "--") = false := by decide
  have hb2 : startsWithStr "-ab" "--" = false := by decide
  have hb3 : startsWithStr "-ab" "-" = true := by decide
  have hb4 : ("-a" == "--") = false := by decide
  have hb5 : startsWithStr "-a" "--" = false := by decide
  have hb6 : startsWithStr "-a" "-" = true := by decide
  have hb7 : ("-b" == "--") = false := by decide
  have hb8 : startsWithStr "-b" "--" = false := by decide
  have hb9 : startsWithStr "-b" "-" = true := by decide
  have hleafab : ∀ ar : Reader Argument,
      Parser.parse_leaf_loop ctx.smap ctx.lmap (Reader.ofList ["-ab"]) ar st
        = (⟨["-ab"], 0, 1, 1⟩, ar, (invokeSeq st [(oa.adaptor, []), (ob.adaptor, [])]).1,
            (invokeSeq st [(oa.adaptor, []), (ob.adaptor, [])]).2) := by
    intro ar
    rw [Parser.parse_leaf_loop_step ctx.smap ctx.lmap (Reader.ofList ["-ab"])
      ⟨["-ab"], 0, 1, 1⟩ "-ab" ar st rfl]
    rw [if_neg (by simp [hb1]), if_neg (by simp [hb2]), if_pos hb3, hcs_ab]
    rcases he : (invokeSeq st [(oa.adaptor, []), (ob.adaptor, [])]).2 with _ | e
    · simp only [he]
      rw [Parser.parse_leaf_loop_eof ctx.smap ctx.lmap ⟨["-ab"], 0, 1, 1⟩ ar
        (invokeSeq st [(oa.adaptor, []), (ob.adaptor, [])]).1 rfl]
    · simp only [he]
  have hnodeab : Parser.parse_node_loop ctx.cmap ctx.smap ctx.lmap (Reader.ofList ["-ab"]) st
      = (⟨["-ab"], 0, 1, 1⟩, (invokeSeq st [(oa.adaptor, []), (ob.adaptor, [])]).1,
          (invokeSeq st [(oa.adaptor, []), (ob.adaptor, [])]).2, none) := by
    rw [Parser.parse_node_loop_step ctx.cmap ctx.smap ctx.lmap (Reader.ofList ["-ab"])
      ⟨["-ab"], 0, 1, 1⟩ "-ab" st rfl]
    rw [if_neg (by simp [hb1]), if_neg (by simp [hb2]), if_pos hb3, hcs_ab]
    rcases he : (invokeSeq st [(oa.adaptor, []), (ob.adaptor, [])]).2 with _ | e
    · simp only [he]
      rw [Parser.parse_node_loop_eof ctx.cmap ctx.smap ctx.lmap ⟨["-ab"], 0, 1, 1⟩
        (invokeSeq st [(oa.adaptor, []), (ob.adaptor, [])]).1 rfl]
    · simp only [he]
  have hleafsep : ∀ ar : Reader Argument,
      (Parser.parse_leaf_loop ctx.smap ctx.lmap (Reader.ofList ["-a", "-b"]) ar st).2.2.1
          = (invokeSeq st [(oa.adaptor, []), (ob.adaptor, [])]).1 ∧
        (Parser.parse_leaf_loop ctx.smap ctx.lmap (Reader.ofList ["-a", "-b"]) ar st).2.2.2
          = (invokeSeq st [(oa.adaptor, []), (ob.adaptor, [])]).2 := by
    intro ar
    rw [Parser.parse_leaf_loop_step ctx.smap ctx.lmap (Reader.ofList ["-a", "-b"])
      ⟨["-a", "-b"], 0, 2, 1⟩ "-a" ar st rfl]
    rw [if_neg (by simp [hb4]), if_neg (by simp [hb5]), if_pos hb6, hcs_a]
    rcases he1 : (invokeAdaptor st oa.adaptor [] .CLI).2 with _ | x1
    · simp only [he1]
      rw [Parser.parse_leaf_loop_step ctx.smap ctx.lmap ⟨["-a", "-b"], 0, 2, 1⟩
        ⟨["-a", "-b"], 0, 2, 2⟩ "-b" ar (invokeAdaptor st oa.adaptor [] .CLI).1 rfl]
      rw [if_neg (by simp [hb7]), if_neg (by simp [hb8]), if_pos hb9, hcs_b]
      rcases he2 : (invokeAdaptor (invokeAdaptor st oa.adaptor [] .CLI).1
          ob.adaptor [] .CLI).2 with _ | x2
      · simp only [he2]
        rw [Parser.parse_leaf_loop_eof ctx.smap ctx.lmap ⟨["-a", "-b"], 0, 2, 2⟩ ar
          (invokeAdaptor (invokeAdaptor st oa.adaptor [] .CLI).1 ob.adaptor [] .CLI).1 rfl]
        simp [invokeSeq, he1, he2]
      · simp [invokeSeq, he1, he2]
    · simp [invokeSeq, he1]
  have hnodesep :
      (Parser.parse_node_loop ctx.cmap ctx.smap ctx.lmap (Reader.ofList ["-a", "-b"]) st).2.1
          = (invokeSeq st [(oa.adaptor, []), (ob.adaptor, [])]).1 ∧
        (Parser.parse_node_loop ctx.cmap ctx.smap ctx.lmap
            (Reader.ofList ["-a", "-b"]) st).2.2.1
          = (invokeSeq st [(oa.adaptor, []), (ob.adaptor, [])]).2 ∧
        (Parser.parse_node_loop ctx.cmap ctx.smap ctx.lmap
            (Reader.ofList ["-a", "-b"]) st).2.2.2 = none := by
    rw [Parser.parse_node_loop_step ctx.cmap ctx.smap ctx.lmap (Reader.ofList ["-a", "-b"])
      ⟨["-a", "-b"], 0, 2, 1⟩ "-a" st rfl]
    rw [if_neg (by simp [hb4]), if_neg (by simp [hb5]), if_pos hb6, hcs_a]
    rcases he1 : (invokeAdaptor st oa.adaptor [] .CLI).2 with _ | x1
    · simp only [he1]
      rw [Parser.parse_node_loop_step ctx.cmap ctx.smap ctx.lmap ⟨["-a", "-b"], 0, 2, 1⟩
        ⟨["-a", "-b"], 0, 2, 2⟩ "-b" (invokeAdaptor st oa.adaptor [] .CLI).1 rfl]
      rw [if_neg (by simp [hb7]), if_neg (by simp [hb8]), if_pos hb9, hcs_b]
      rcases he2 : (invokeAdaptor (invokeAdaptor st oa.adaptor [] .CLI).1
          ob.adaptor [] .CLI).2 with _ | x2
      · simp only [he2]
        rw [Parser.parse_node_loop_eof ctx.cmap ctx.smap ctx.lmap ⟨["-a", "-b"], 0, 2, 2⟩
          (invokeAdaptor (invokeAdaptor st oa.adaptor [] .CLI).1 ob.adaptor [] .CLI).1 rfl]
        simp [invokeSeq, he1, he2]
      · simp [invokeSeq, he1, he2]
    · simp [invokeSeq, he1]
  refine ⟨?_, ?_, ?_, ?_⟩
  · unfold Parser.run Parser.parse
    by_cases hLeaf : ctx.command.is_leaf = true
    · rw [if_pos hLeaf, hleafab (Reader.ofList ctx.aseq)]
    · rw [if_neg hLeaf, hnodeab]
  · unfold Parser.run Parser.parse
    by_cases hLeaf : ctx.command.is_leaf = true
    · rw [if_pos hLeaf]
      obtain ⟨h1, h2⟩ := hleafsep (Reader.ofList ctx.aseq)
      exact Prod.ext h1 h2
    · rw [if_neg hLeaf]
      obtain ⟨h1, h2, _⟩ := hnodesep
      exact Prod.ext h1 h2
  · unfold Parser.run Parser.parse
    by_cases hLeaf : ctx.command.is_leaf = true
    · rw [if_pos hLeaf, hleafab (Reader.ofList ctx.aseq)]
    · rw [if_neg hLeaf, hnodeab]
  · unfold Parser.run Parser.parse
    by_cases hLeaf : ctx.command.is_leaf = true
    · rw [if_pos hLeaf]
    · rw [if_neg hLeaf]
      exact hnodesep.2.2

/-- Concrete grammar for the C2 witness: one leaf command with two
zero-value short options `-a` and `-b` bound to flag adaptors. -/
def optA_W : COption :=
  { id := "a", long_options := [], short_options := ["a"], adaptor := "aA",
    multiple := true, required := false }

def optB_W : COption :=
  { id := "b", long_options := [], short_options := ["b"], adaptor := "bA",
    multiple := true, required := false }

def cmdC2_W : Command := .mk "prog" [] [] [[optA_W, optB_W]]

def ctxC2_W : ParserCtx :=
  { command := cmdC2_W, cmap := [], aseq := [],
    smap := [("a", optA_W), ("b", optB_W)], lmap := [] }

/-- **C2 witness.** -/
theorem claim_C2_witness :
    Parser.init cmdC2_W = .ok ctxC2_W ∧
      dictGet? ctxC2_W.smap "a" = some optA_W ∧
      dictGet? ctxC2_W.smap "b" = some optB_W ∧
      (sampleStore optA_W.adaptor).num_values = 0 ∧
      (sampleStore optB_W.adaptor).num_values = 0 ∧
      (((Parser.run ctxC2_W ["-ab"] sampleStore).store,
          (Parser.run ctxC2_W ["-ab"] sampleStore).err)
          = invokeSeq sampleStore [(optA_W.adaptor, []), (optB_W.adaptor, [])] ∧
        ((Parser.run ctxC2_W ["-a", "-b"] sampleStore).store,
          (Parser.run ctxC2_W ["-a", "-b"] sampleStore).err)
          = invokeSeq sampleStore [(optA_W.adaptor, []), (optB_W.adaptor, [])] ∧
        (Parser.run ctxC2_W ["-ab"] sampleStore).result = none ∧
        (Parser.run ctxC2_W ["-a", "-b"] sampleStore).result = none) :=
  ⟨rfl, rfl, rfl, rfl, rfl,
    claim_C2 cmdC2_W ctxC2_W sampleStore optA_W optB_W rfl rfl rfl rfl rfl⟩

/-! ### C6: unknown long option -/

theorem dictGet?_dictInsert {α : Type} (m : List (String × α)) (k k1 : String) (v : α) :
    dictGet? (dictInsert m k v) k1 = if k = k1 then some v else dictGet? m k1 := by
  induction m with
  | nil =>
    by_cases h : k = k1 <;> simp [dictInsert, dictGet?, h]
  | cons p rest ih =>
    obtain ⟨k2, v2⟩ := p
    by_cases h2 : k2 = k
    · subst h2
      by_cases h1 : k2 = k1 <;> simp [dictInsert, dictGet?, h1]
    · by_cases h1 : k2 = k1
      · subst h1
        have hne : k ≠ k2 := fun hh => h2 hh.symm
        simp [dictInsert, dictGet?, h2, hne]
      · simp [dictInsert, dictGet?, h2, h1, ih]

theorem OptionConsumer.insertLongs_lookup (o : COption) (ks : List String)
    (m m1 : List (String × COption)) (n : String)
    (h : OptionConsumer.insertLongs o m ks = .ok m1)
    (hn : (dictGet? m1 n).isSome = true) :
    (dictGet? m n).isSome = true ∨ n ∈ ks := by
  induction ks generalizing m with
  | nil =>
    unfold OptionConsumer.insertLongs at h
    simp only [Except.ok.injEq] at h
    subst h
    exact Or.inl hn
  | cons k ks ih =>
    unfold OptionConsumer.insertLongs at h
    split at h
    · exact absurd h (by simp)
    · rcases ih (dictInsert m k o) h with hL | hR
      · rw [dictGet?_dictInsert] at hL
        by_cases hk : k = n
        · exact Or.inr (by simp [hk])
        · rw [if_neg hk] at hL
          exact Or.inl hL
      · exact Or.inr (List.mem_cons_of_mem _ hR)

theorem OptionConsumer.insertShorts_lookup (o : COption) (ks : List String)
    (m m1 : List (String × COption)) (n : String)
    (h : OptionConsumer.insertShorts o m ks = .ok m1)
    (hn : (dictGet? m1 n).isSome = true) :
    (dictGet? m n).isSome = true ∨ n ∈ ks := by
  induction ks generalizing m with
  | nil =>
    unfold OptionConsumer.insertShorts at h
    simp only [Except.ok.injEq] at h
    subst h
    exact Or.inl hn
  | cons k ks ih =>
    unfold OptionConsumer.insertShorts at h
    split at h
    · exact absurd h (by simp)
    · rcases ih (dictInsert m k o) h with hL | hR
      · rw [dictGet?_dictInsert] at hL
        by_cases hk : k = n
        · exact Or.inr (by simp [hk])
        · rw [if_neg hk] at hL
          exact Or.inl hL
      · exact Or.inr (List.mem_cons_of_mem _ hR)

theorem OptionConsumer.buildLoop_lookup_long (os : List COption)
    (smap lmap s l : List (String × COption)) (n : String)
    (h : OptionConsumer.buildLoop os smap lmap = .ok (s, l))
    (hn : (dictGet? l n).isSome = true) :
    (dictGet? lmap n).isSome = true ∨ n ∈ (os.map COption.long_options).flatten := by
  induction os generalizing smap lmap with
  | nil =>
    unfold OptionConsumer.buildLoop at h
    simp only [Except.ok.injEq, Prod.mk.injEq] at h
    rw [h.2]
    exact Or.inl hn
  | cons o os ih =>
    unfold OptionConsumer.buildLoop at h
    split at h
    · exact absurd h (by simp)
    · rename_i smap1 hs
      split at h
      · exact absurd h (by simp)
      · rename_i lmap1 hl
        rcases ih smap1 lmap1 h with hL | hR
        · rcases OptionConsumer.insertLongs_lookup o o.long_options lmap lmap1 n hl hL
            with hL2 | hR2
          · exact Or.inl hL2
          · refine Or.inr ?_
            simp only [List.map_cons, List.flatten_cons, List.mem_append]
            exact Or.inl hR2
        · refine Or.inr ?_
          simp only [List.map_cons, List.flatten_cons, List.mem_append]
          exact Or.inr hR

/-- From a successful `Parser.init`, the option maps are the ones the
option build produced. -/
theorem Parser.init_build {c : Command} {ctx : ParserCtx}
    (hInit : Parser.init c = .ok ctx) :
    OptionConsumer.build c = .ok (ctx.smap, ctx.lmap) := by
  unfold Parser.init at hInit
  split at hInit
  · exact absurd hInit (by simp)
  · split at hInit
    · exact absurd hInit (by simp)
    · rename_i smap lmap hb
      simp only [Except.ok.injEq] at hInit
      rw [← hInit]
      exact hb

/-- **C6.** Parsing `["--nope"]` at any node whose command declares no
long option spelled `nope` raises the unknown-option parsing error
`"Unknown option: 'nope'."`, leaves the adaptor heap exactly as it
was, and yields no subcommand. -/
theorem claim_C6 (c : Command) (ctx : ParserCtx) (st : Store)
    (hInit : Parser.init c = .ok ctx)
    (hNope : "nope" ∉ c.allLongs) :
    (Parser.run ctx ["--nope"] st).store = st ∧
      (Parser.run ctx ["--nope"] st).err = some (.cliParsing "Unknown option: 'nope'.") ∧
      (Parser.run ctx ["--nope"] st).result = none := by
  have hbuild := Parser.init_build hInit
  have hlook : dictGet? ctx.lmap "nope" = none := by
    rcases hcase : dictGet? ctx.lmap "nope" with _ | v
    · rfl
    · exfalso
      have hsome : (dictGet? ctx.lmap "nope").isSome = true := by rw [hcase]; rfl
      rcases OptionConsumer.buildLoop_lookup_long c.option_groups.flatten [] []
          ctx.smap ctx.lmap "nope" hbuild hsome with hL | hR
      · simp [dictGet?] at hL
      · exact hNope hR
  have hcl : ∀ r : Reader String,
      OptionConsumer.consume_long ctx.lmap "--nope" r st
        = (r, st, some (.cliParsing "Unknown option: 'nope'.")) := by
    intro r
    have e1 : removePrefixStr "--nope" "--" = "nope" := by decide
    have e2 : splitFirst ['n', 'o', 'p', 'e'] '=' = none := by decide
    have e3 : "Unknown option: " ++ pyRepr "nope" ++ "." = "Unknown option: 'nope'." := by
      decide
    simp [OptionConsumer.consume_long, OptionConsumer.getLongOption, e1, e2, e3, hlook]
  have hb1 : ("--nope" == "--") = false := by decide
  have hb2 : startsWithStr "--nope" "--" = true := by decide
  have hleaf : ∀ ar : Reader Argument,
      Parser.parse_leaf_loop ctx.smap ctx.lmap (Reader.ofList ["--nope"]) ar st
        = (⟨["--nope"], 0, 1, 1⟩, ar, st, some (.cliParsing "Unknown option: 'nope'.")) := by
    intro ar
    rw [Parser.parse_leaf_loop_step ctx.smap ctx.lmap (Reader.ofList ["--nope"])
      ⟨["--nope"], 0, 1, 1⟩ "--nope" ar st rfl]
    rw [if_neg (by simp [hb1]), if_pos hb2, hcl]
  have hnode : Parser.parse_node_loop ctx.cmap ctx.smap ctx.lmap
        (Reader.ofList ["--nope"]) st
      = (⟨["--nope"], 0, 1, 1⟩, st, some (.cliParsing "Unknown option: 'nope'."), none) := by
    rw [Parser.parse_node_loop_step ctx.cmap ctx.smap ctx.lmap (Reader.ofList ["--nope"])
      ⟨["--nope"], 0, 1, 1⟩ "--nope" st rfl]
    rw [if_neg (by simp [hb1]), if_pos hb2, hcl]
  unfold Parser.run Parser.parse
  by_cases hLeaf : ctx.command.is_leaf = true
  · rw [if_pos hLeaf, hleaf (Reader.ofList ctx.aseq)]
    exact ⟨rfl, rfl, rfl⟩
  · rw [if_neg hLeaf, hnode]
    exact ⟨rfl, rfl, rfl⟩

/-- **C6 witness** (over the C1 grammar, which declares only the long
option `foo`). -/
theorem claim_C6_witness :
    Parser.init cmdC1_W = .ok ctxC1_W ∧
      "nope" ∉ cmdC1_W.allLongs ∧
      ((Parser.run ctxC1_W ["--nope"] fooStore_W).store = fooStore_W ∧
        (Parser.run ctxC1_W ["--nope"] fooStore_W).err
          = some (.cliParsing "Unknown option: 'nope'.") ∧
        (Parser.run ctxC1_W ["--nope"] fooStore_W).result = none) :=
  ⟨rfl, by decide, claim_C6 cmdC1_W ctxC1_W fooStore_W rfl (by decide)⟩

/-! ### C3: everything after `--` is positional -/

/-- The tokens a reader delivers by repeated `get` until `is_eof` (for
a well-formed reader, the remaining segment `[cursor, end)`). -/
def Reader.readTokens {T : Type} (r : Reader T) : List T :=
  if r.is_eof then []
  else
    match hg : r.get with
    | .error _ => []
    | .ok (t, r1) => t :: r1.readTokens
termination_by r.tokens.length - r.cursor
decreasing_by
  obtain ⟨ht, _, _, hc, hlt, _⟩ := Reader.get_ok hg
  rw [ht, hc]
  omega

theorem Reader.readTokens_eof {T : Type} (r : Reader T) (h : r.is_eof = true) :
    r.readTokens = [] := by
  rw [Reader.readTokens]
  rw [if_pos h]

theorem Reader.readTokens_step {T : Type} (r r1 : Reader T) (t : T)
    (hGet : r.get = .ok (t, r1)) : r.readTokens = t :: r1.readTokens := by
  have hEof := Reader.get_ok_not_eof hGet
  conv_lhs => rw [Reader.readTokens]
  rw [if_neg (by simp [hEof])]
  split
  · rename_i e heq
    rw [hGet] at heq
    exact absurd heq (by simp)
  · rename_i t2 r2 heq
    rw [hGet] at heq
    injection heq with hpair
    injection hpair with h1 h2
    subst h1; subst h2
    rfl

/-- The reference semantics of the post-`--` phase: fold the argument
consumer over a token list, stopping at the first raise.  The option
maps do not appear at all. -/
def argFold (ar : Reader Argument) (st : Store) :
    List String → Reader Argument × Store × Option Err
  | [] => (ar, st, none)
  | t :: ts =>
    let res := ArgumentConsumer.consume ar st t
    match res.2.2 with
    | none => argFold res.1 res.2.1 ts
    | some e => (res.1, res.2.1, some e)

/-- A well-formed reader that is not at end delivers a token. -/
theorem Reader.get_of_not_eof {T : Type} (r : Reader T) (hWF : r.WF)
    (hEof : r.is_eof = false) : ∃ t r1, r.get = .ok (t, r1) := by
  obtain ⟨w1, w2, w3⟩ := hWF
  unfold Reader.get
  rw [if_neg (by simpa [Reader.is_eof] using hEof)]
  have hne : r.cursor ≠ r.end_ := by simpa [Reader.is_eof] using hEof
  have hlt : r.cursor < r.tokens.length := by omega
  rw [List.get?_eq_get hlt]
  exact ⟨_, _, rfl⟩

/-- The `if double_hyphen:` tail loop is exactly the argument fold
over the reader's remaining tokens. -/
theorem Parser.hyphen_loop_eq_argFold (r : Reader String) (ar : Reader Argument)
    (st : Store) (hWF : r.WF) :
    (Parser.parse_leaf_hyphen_loop r ar st).2 = argFold ar st r.readTokens := by
  generalize hmeas : r.tokens.length - r.cursor = meas
  induction meas using Nat.strong_induction_on generalizing r ar st with
  | _ meas ih =>
    by_cases hEof : r.is_eof = true
    · rw [Parser.parse_leaf_hyphen_loop_eof r ar st hEof, Reader.readTokens_eof r hEof]
      rfl
    · obtain ⟨t, r1, hget⟩ :=
        Reader.get_of_not_eof r hWF (Bool.not_eq_true _ ▸ hEof)
      rw [Parser.parse_leaf_hyphen_loop_step r r1 t ar st hget,
        Reader.readTokens_step r r1 t hget]
      obtain ⟨ht, hs, he, hc, hlt, _⟩ := Reader.get_ok hget
      have hWF1 : r1.WF := Reader.get_ok_WF hWF hget
      have hmeas1 : r1.tokens.length - r1.cursor < meas := by
        rw [ht, hc]
        omega
      simp only [argFold]
      rcases he2 : (ArgumentConsumer.consume ar st t).2.2 with _ | e
      · simp only [he2]
        exact ih _ hmeas1 r1 (ArgumentConsumer.consume ar st t).1
          (ArgumentConsumer.consume ar st t).2.1 hWF1 rfl
      · simp only [he2]

/-- **C3.** After the `--` sentinel is consumed, the leaf parser's
remaining phase is exactly a fold of the positional-argument consumer
over the remaining tokens verbatim — the option maps never enter.  In
particular, at a leaf with exactly one positional declaration, parsing
`["--", "-weird"]` invokes that declaration's adaptor once, from the
command line, with the literal value `"-weird"`. -/
theorem claim_C3 (r : Reader String) (ar : Reader Argument) (stg : Store)
    (c : Command) (ctx : ParserCtx) (st : Store) (argument : Argument)
    (hWF : r.WF)
    (hInit : Parser.init c = .ok ctx)
    (hLeaf : ctx.command.is_leaf = true)
    (hA : ctx.aseq = [argument]) :
    (Parser.parse_leaf_hyphen_loop r ar stg).2 = argFold ar stg r.readTokens ∧
      ((Parser.run ctx ["--", "-weird"] st).store, (Parser.run ctx ["--", "-weird"] st).err)
        = invokeAdaptor st argument.adaptor ["-weird"] .CLI ∧
      (Parser.run ctx ["--", "-weird"] st).result = none := by
  refine ⟨Parser.hyphen_loop_eq_argFold r ar stg hWF, ?_⟩
  · -- the single consume step seen through its store/error projections
    have hcons :
        (ArgumentConsumer.consume (Reader.ofList [argument]) st "-weird").2.1
            = (invokeAdaptor st argument.adaptor ["-weird"] .CLI).1 ∧
          (ArgumentConsumer.consume (Reader.ofList [argument]) st "-weird").2.2
            = (invokeAdaptor st argument.adaptor ["-weird"] .CLI).2 := by
      have e1 : (Reader.ofList [argument]).is_eof = false := rfl
      have e2 : (Reader.ofList [argument]).get
          = .ok (argument, ⟨[argument], 0, 1, 1⟩) := rfl
      have e3 : (⟨[argument], 0, 1, 1⟩ : Reader Argument).put
          = .ok ⟨[argument], 0, 1, 0⟩ := rfl
      rcases he : (invokeAdaptor st argument.adaptor ["-weird"] .CLI).2 with _ | e
      · simp only [ArgumentConsumer.consume, e1, e2, e3, he, Bool.false_eq_true,
          if_false]
        split <;> simp [he]
      · simp [ArgumentConsumer.consume, e1, e2, he]
    have hfold :
        (argFold (Reader.ofList [argument]) st ["-weird"]).2.1
            = (invokeAdaptor st argument.adaptor ["-weird"] .CLI).1 ∧
          (argFold (Reader.ofList [argument]) st ["-weird"]).2.2
            = (invokeAdaptor st argument.adaptor ["-weird"] .CLI).2 := by
      rcases he : (ArgumentConsumer.consume (Reader.ofList [argument]) st "-weird").2.2
        with _ | e
      · simp only [argFold, he]
        rw [← he]
        exact ⟨hcons.1, hcons.2⟩
      · simp only [argFold, he]
        rw [← he]
        exact ⟨hcons.1, hcons.2⟩
    have hr1WF : (⟨["--", "-weird"], 0, 2, 1⟩ : Reader String).WF := by decide
    have hhyphfold := Parser.hyphen_loop_eq_argFold ⟨["--", "-weird"], 0, 2, 1⟩
      (Reader.ofList ctx.aseq) st hr1WF
    have hrt : (⟨["--", "-weird"], 0, 2, 1⟩ : Reader String).readTokens = ["-weird"] := by
      rw [Reader.readTokens_step ⟨["--", "-weird"], 0, 2, 1⟩ ⟨["--", "-weird"], 0, 2, 2⟩
        "-weird" rfl]
      rw [Reader.readTokens_eof ⟨["--", "-weird"], 0, 2, 2⟩ rfl]
    rw [hrt, hA] at hhyphfold
    have hst := congrArg (fun p => p.2.1) hhyphfold
    have herr := congrArg (fun p => p.2.2) hhyphfold
    simp only at hst herr
    unfold Parser.run Parser.parse
    rw [if_pos hLeaf]
    rw [Parser.parse_leaf_loop_step ctx.smap ctx.lmap (Reader.ofList ["--", "-weird"])
      ⟨["--", "-weird"], 0, 2, 1⟩ "--" (Reader.ofList ctx.aseq) st rfl]
    rw [if_pos (by decide : (("--" : String) == "--") = true)]
    rw [hA]
    exact ⟨Prod.ext (hst.trans hfold.1) (herr.trans hfold.2), rfl⟩

/-- Concrete grammar for the C3 witness: one leaf command with exactly
one positional declaration and no options. -/
def argP_W : Argument :=
  { id := "p", adaptor := "pA", multiple := false, required := true }

def cmdC3_W : Command := .mk "prog" [] [[argP_W]] []

def ctxC3_W : ParserCtx :=
  { command := cmdC3_W, cmap := [], aseq := [argP_W], smap := [], lmap := [] }

/-- **C3 witness.** -/
theorem claim_C3_witness :
    (Reader.ofList ["x"]).WF ∧
      Parser.init cmdC3_W = .ok ctxC3_W ∧
      ctxC3_W.command.is_leaf = true ∧
      ctxC3_W.aseq = [argP_W] ∧
      ((Parser.parse_leaf_hyphen_loop (Reader.ofList ["x"]) (Reader.ofList []) sampleStore).2
          = argFold (Reader.ofList []) sampleStore (Reader.ofList ["x"]).readTokens ∧
        ((Parser.run ctxC3_W ["--", "-weird"] fooStore_W).store,
          (Parser.run ctxC3_W ["--", "-weird"] fooStore_W).err)
          = invokeAdaptor fooStore_W argP_W.adaptor ["-weird"] .CLI ∧
        (Parser.run ctxC3_W ["--", "-weird"] fooStore_W).result = none) :=
  ⟨by decide, rfl, rfl, rfl,
    claim_C3 (Reader.ofList ["x"]) (Reader.ofList []) sampleStore cmdC3_W ctxC3_W
      fooStore_W argP_W (by decide) rfl rfl rfl⟩

/-! ### C7: setup-time failures -/

theorem OptionConsumer.insertShorts_ok_nodup (o : COption) (ks : List String)
    (m m1 : List (String × COption))
    (h : OptionConsumer.insertShorts o m ks = .ok m1) :
    ks.Nodup ∧ ∀ k ∈ ks, dictGet? m k = none := by
  induction ks generalizing m with
  | nil => exact ⟨List.nodup_nil, by simp⟩
  | cons k ks ih =>
    unfold OptionConsumer.insertShorts at h
    split at h
    · exact absurd h (by simp)
    · rename_i hchk
      obtain ⟨hnd, hnone⟩ := ih (dictInsert m k o) h
      have hknone : dictGet? m k = none := by
        rcases hcase : dictGet? m k with _ | v
        · rfl
        · exact absurd (by rw [hcase]; rfl) hchk
      have hknotin : k ∉ ks := by
        intro hmem
        have := hnone k hmem
        rw [dictGet?_dictInsert, if_pos rfl] at this
        exact absurd this (by simp)
      refine ⟨List.nodup_cons.mpr ⟨hknotin, hnd⟩, ?_⟩
      intro k1 hk1
      rcases List.mem_cons.mp hk1 with hk1 | hk1
      · rw [hk1]
        exact hknone
      · have := hnone k1 hk1
        rw [dictGet?_dictInsert] at this
        by_cases hkk : k = k1
        · rw [if_pos hkk] at this
          exact absurd this (by simp)
        · rw [if_neg hkk] at this
          exact this

theorem OptionConsumer.insertLongs_ok_nodup (o : COption) (ks : List String)
    (m m1 : List (String × COption))
    (h : OptionConsumer.insertLongs o m ks = .ok m1) :
    ks.Nodup ∧ ∀ k ∈ ks, dictGet? m k = none := by
  induction ks generalizing m with
  | nil => exact ⟨List.nodup_nil, by simp⟩
  | cons k ks ih =>
    unfold OptionConsumer.insertLongs at h
    split at h
    · exact absurd h (by simp)
    · rename_i hchk
      obtain ⟨hnd, hnone⟩ := ih (dictInsert m k o) h
      have hknone : dictGet? m k = none := by
        rcases hcase : dictGet? m k with _ | v
        · rfl
        · exact absurd (by rw [hcase]; rfl) hchk
      have hknotin : k ∉ ks := by
        intro hmem
        have := hnone k hmem
        rw [dictGet?_dictInsert, if_pos rfl] at this
        exact absurd this (by simp)
      refine ⟨List.nodup_cons.mpr ⟨hknotin, hnd⟩, ?_⟩
      intro k1 hk1
      rcases List.mem_cons.mp hk1 with hk1 | hk1
      · rw [hk1]
        exact hknone
      · have := hnone k1 hk1
        rw [dictGet?_dictInsert] at this
        by_cases hkk : k = k1
        · rw [if_pos hkk] at this
          exact absurd this (by simp)
        · rw [if_neg hkk] at this
          exact this

theorem OptionConsumer.insertShorts_mem (o : COption) (ks : List String)
    (m m1 : List (String × COption))
    (h : OptionConsumer.insertShorts o m ks = .ok m1) (k : String) :
    (dictGet? m1 k).isSome = true ↔ ((dictGet? m k).isSome = true ∨ k ∈ ks) := by
  induction ks generalizing m with
  | nil =>
    unfold OptionConsumer.insertShorts at h
    simp only [Except.ok.injEq] at h
    subst h
    simp
  | cons k1 ks ih =>
    unfold OptionConsumer.insertShorts at h
    split at h
    · exact absurd h (by simp)
    · rw [ih (dictInsert m k1 o) h, dictGet?_dictInsert]
      by_cases hkk : k1 = k
      · subst hkk
        simp
      · rw [if_neg hkk]
        constructor
        · rintro (hx | hx)
          · exact Or.inl hx
          · exact Or.inr (List.mem_cons_of_mem _ hx)
        · rintro (hx | hx)
          · exact Or.inl hx
          · rcases List.mem_cons.mp hx with hx | hx
            · exact absurd hx.symm hkk
            · exact Or.inr hx

theorem OptionConsumer.insertLongs_mem (o : COption) (ks : List String)
    (m m1 : List (String × COption))
    (h : OptionConsumer.insertLongs o m ks = .ok m1) (k : String) :
    (dictGet? m1 k).isSome = true ↔ ((dictGet? m k).isSome = true ∨ k ∈ ks) := by
  induction ks generalizing m with
  | nil =>
    unfold OptionConsumer.insertLongs at h
    simp only [Except.ok.injEq] at h
    subst h
    simp
  | cons k1 ks ih =>
    unfold OptionConsumer.insertLongs at h
    split at h
    · exact absurd h (by simp)
    · rw [ih (dictInsert m k1 o) h, dictGet?_dictInsert]
      by_cases hkk : k1 = k
      · subst hkk
        simp
      · rw [if_neg hkk]
        constructor
        · rintro (hx | hx)
          · exact Or.inl hx
          · exact Or.inr (List.mem_cons_of_mem _ hx)
        · rintro (hx | hx)
          · exact Or.inl hx
          · rcases List.mem_cons.mp hx with hx | hx
            · exact absurd hx.symm hkk
            · exact Or.inr hx

theorem OptionConsumer.buildLoop_ok_nodup (os : List COption)
    (smap lmap s l : List (String × COption))
    (h : OptionConsumer.buildLoop os smap lmap = .ok (s, l)) :
    ((os.map COption.short_options).flatten.Nodup ∧
        ∀ k ∈ (os.map COption.short_options).flatten, dictGet? smap k = none) ∧
      ((os.map COption.long_options).flatten.Nodup ∧
        ∀ k ∈ (os.map COption.long_options).flatten, dictGet? lmap k = none) := by
  induction os generalizing smap lmap with
  | nil => simp
  | cons o os ih =>
    unfold OptionConsumer.buildLoop at h
    split at h
    · exact absurd h (by simp)
    · rename_i smap1 hs
      split at h
      · exact absurd h (by simp)
      · rename_i lmap1 hl
        obtain ⟨⟨ihs_nd, ihs_none⟩, ⟨ihl_nd, ihl_none⟩⟩ := ih smap1 lmap1 h
        obtain ⟨os_nd, os_none⟩ := OptionConsumer.insertShorts_ok_nodup o o.short_options
          smap smap1 hs
        obtain ⟨ol_nd, ol_none⟩ := OptionConsumer.insertLongs_ok_nodup o o.long_options
          lmap lmap1 hl
        have hs_mem := OptionConsumer.insertShorts_mem o o.short_options smap smap1 hs
        have hl_mem := OptionConsumer.insertLongs_mem o o.long_options lmap lmap1 hl
        simp only [List.map_cons, List.flatten_cons]
        refine ⟨⟨?_, ?_⟩, ?_, ?_⟩
        · rw [List.nodup_append]
          refine ⟨os_nd, ihs_nd, ?_⟩
          intro k hk1 hk2
          have hnone := ihs_none k hk2
          have hsome : (dictGet? smap1 k).isSome = true := (hs_mem k).mpr (Or.inr hk1)
          rw [hnone] at hsome
          exact absurd hsome (by simp)
        · intro k hk
          rcases List.mem_append.mp hk with hk | hk
          · exact os_none k hk
          · have hnone := ihs_none k hk
            rcases hcase : dictGet? smap k with _ | v
            · rfl
            · exfalso
              have hsome : (dictGet? smap1 k).isSome = true :=
                (hs_mem k).mpr (Or.inl (by rw [hcase]; rfl))
              rw [hnone] at hsome
              exact absurd hsome (by simp)
        · rw [List.nodup_append]
          refine ⟨ol_nd, ihl_nd, ?_⟩
          intro k hk1 hk2
          have hnone := ihl_none k hk2
          have hsome : (dictGet? lmap1 k).isSome = true := (hl_mem k).mpr (Or.inr hk1)
          rw [hnone] at hsome
          exact absurd hsome (by simp)
        · intro k hk
          rcases List.mem_append.mp hk with hk | hk
          · exact ol_none k hk
          · have hnone := ihl_none k hk
            rcases hcase : dictGet? lmap k with _ | v
            · rfl
            · exfalso
              have hsome : (dictGet? lmap1 k).isSome = true :=
                (hl_mem k).mpr (Or.inl (by rw [hcase]; rfl))
              rw [hnone] at hsome
              exact absurd hsome (by simp)

theorem OptionConsumer.insertShorts_error (o : COption) (ks : List String)
    (m : List (String × COption)) (e : Err)
    (h : OptionConsumer.insertShorts o m ks = .error e) :
    ∃ msg, e = .valueError msg := by
  induction ks generalizing m with
  | nil =>
    unfold OptionConsumer.insertShorts at h
    exact absurd h (by simp)
  | cons k ks ih =>
    unfold OptionConsumer.insertShorts at h
    split at h
    · simp only [Except.error.injEq] at h
      exact ⟨_, h.symm⟩
    · exact ih (dictInsert m k o) h

theorem OptionConsumer.insertLongs_error (o : COption) (ks : List String)
    (m : List (String × COption)) (e : Err)
    (h : OptionConsumer.insertLongs o m ks = .error e) :
    ∃ msg, e = .valueError msg := by
  induction ks generalizing m with
  | nil =>
    unfold OptionConsumer.insertLongs at h
    exact absurd h (by simp)
  | cons k ks ih =>
    unfold OptionConsumer.insertLongs at h
    split at h
    · simp only [Except.error.injEq] at h
      exact ⟨_, h.symm⟩
    · exact ih (dictInsert m k o) h

theorem OptionConsumer.buildLoop_error (os : List COption)
    (smap lmap : List (String × COption)) (e : Err)
    (h : OptionConsumer.buildLoop os smap lmap = .error e) :
    ∃ msg, e = .valueError msg := by
  induction os generalizing smap lmap with
  | nil =>
    unfold OptionConsumer.buildLoop at h
    exact absurd h (by simp)
  | cons o os ih =>
    unfold OptionConsumer.buildLoop at h
    split at h
    · rename_i he
      simp only [Except.error.injEq] at h
      subst h
      exact OptionConsumer.insertShorts_error o o.short_options smap _ he
    · split at h
      · rename_i he
        simp only [Except.error.injEq] at h
        subst h
        exact OptionConsumer.insertLongs_error o o.long_options lmap _ he
      · exact ih _ _ h

/-- **C7.** A grammar with two colliding option spellings (short or
long) or with both subcommand groups and positional-argument groups
never yields a parser: `Parser.__init__` itself fails, with a
`ValueError` — a setup-time failure distinct from the
`CliParsingError` category used for runtime parsing errors. -/
theorem claim_C7 (c : Command)
    (hBad : ¬c.allShorts.Nodup ∨ ¬c.allLongs.Nodup ∨
      (c.command_groups ≠ [] ∧ c.argument_groups ≠ [])) :
    ∃ msg, Parser.init c = .error (.valueError msg) := by
  by_cases hMix : c.command_groups ≠ [] ∧ c.argument_groups ≠ []
  · have h1 : c.command_groups.isEmpty = false := by
      rcases hcg : c.command_groups with _ | ⟨g, gs⟩
      · exact absurd hcg hMix.1
      · rfl
    have h2 : c.argument_groups.isEmpty = false := by
      rcases hag : c.argument_groups with _ | ⟨g, gs⟩
      · exact absurd hag hMix.2
      · rfl
    refine ⟨"Command can not have both command groups and argument groups.", ?_⟩
    unfold Parser.init
    rw [if_pos (by rw [h1, h2]; rfl)]
  · have hcond : (!c.command_groups.isEmpty && !c.argument_groups.isEmpty) = false := by
      by_cases hc : c.command_groups = []
      · rw [hc]
        rfl
      · have ha : c.argument_groups = [] := by
          by_contra hna
          exact hMix ⟨hc, hna⟩
        rw [ha]
        simp
    rcases hb : OptionConsumer.build c with e | ⟨smap, lmap⟩
    · obtain ⟨msg, hmsg⟩ := OptionConsumer.buildLoop_error c.option_groups.flatten [] [] e hb
      refine ⟨msg, ?_⟩
      unfold Parser.init
      rw [if_neg (by rw [hcond]; simp), hb, hmsg]
    · exfalso
      obtain ⟨⟨hsn, _⟩, ⟨hln, _⟩⟩ :=
        OptionConsumer.buildLoop_ok_nodup c.option_groups.flatten [] [] smap lmap hb
      rcases hBad with hB | hB | hB
      · exact hB hsn
      · exact hB hln
      · exact hMix hB

/-- A command with a colliding short spelling, for the C7 witness. -/
def optA2_W : COption :=
  { id := "a2", long_options := [], short_options := ["a"], adaptor := "a2A",
    multiple := true, required := false }

def cmdC7_W : Command := .mk "prog" [] [] [[optA_W, optA2_W]]

/-- **C7 witness.** -/
theorem claim_C7_witness :
    (¬cmdC7_W.allShorts.Nodup ∨ ¬cmdC7_W.allLongs.Nodup ∨
        (cmdC7_W.command_groups ≠ [] ∧ cmdC7_W.argument_groups ≠ [])) ∧
      ∃ msg, Parser.init cmdC7_W = .error (.valueError msg) :=
  ⟨Or.inl (by decide), claim_C7 cmdC7_W (Or.inl (by decide))⟩

end Capf
